import Mathlib

/-!
# transfer: value masking, staging casts and the BigQuery dialect

A shallow embedding of

* `clients/snowflake/staging.go` (`replaceExceededValues`, `castColValStaging`,
  `Store.writeTemporaryTableFile`, `Store.PrepareTemporaryTable`),
* `clients/snowflake/writes.go` (the COPY clause of `Store.Append`,
  `Store.additionalEqualityStrings`, `Store.Merge`),
* `lib/sql/bigquery.go` (`BigQueryDialect.DataTypeForKind`, `BigQueryDialect.KindForDataType`,
  `BigQueryDialect.IsColumnAlreadyExistsErr`,
  `BigQueryDialect.BuildProcessToastStructColExpression`),
* the decimal constructors that `lib/typing/decimal/decimal_test.go` exercises,

together with the properties proved about them.

Conventions of the embedding

* a Go `string` is a Lean `String`; Go's `len` is the UTF-8 byte count;
* a Go `int32` is an `Int`, and the conversion `int32(x)` wraps explicitly;
* a Go `error` is an `Option` (`none` is `nil`), and a Go result pair `(T, error)` is a Lean pair;
* a Go pointer field is an `Option` (`none` is the nil pointer), and a function that
  dereferences such a field returns an `Option` (`none` is the nil-pointer panic);
* the file system is explicit state, and the outcomes of the calls to the environment (file
  creation, writes, statement execution, removal) are parameters.
-/

namespace Transfer

/-! ## Go built-ins -/

/-- Go `len(s)` on a string: its number of bytes. -/
def len (s : String) : Nat := s.utf8ByteSize

/-- Go conversion `int32(x)` of an `int`: the low 32 bits, read as two's complement. -/
def int32 (x : Int) : Int := (x + 2147483648) % 4294967296 - 2147483648

/-- A Go `error` value; `none` is `nil`, `some msg` an error with message `msg`. -/
abbrev error := Option String

/-- Go `strings.Repeat(string(c), n)`, used to build long inputs. -/
def stringsRepeat (c : Char) (n : Nat) : String := String.mk (List.replicate n c)

/-- Go `fmt.Sprintf("{\"key\":\"%s\"}", inner)`. -/
def keyWrapper (inner : String) : String := "\x7b\"key\":\"" ++ inner ++ "\"\x7d"

/-! ## `lib/config/constants` -/

namespace constants

/-- The marker written in place of a value that exceeds the destination limit
(`constants.ExceededValueMarker`; its text is the one asserted in `cast_test.go`). -/
def ExceededValueMarker : String := "__artie_exceeded_value"

end constants

/-! ## Go's `strings`, `unicode` and `strconv` -/

namespace unicode

/-- Go `unicode.ToLower` on the runes that matter to a comparison with ASCII text: an ASCII
capital goes to its small letter, and the two non-ASCII runes whose lower case is ASCII
(U+0130 to `i`, U+212A to `k`) go there; every other rune is kept (Go sends a non-ASCII capital
to a non-ASCII small letter, which no comparison below tells from the capital). -/
def ToLower (c : Char) : Char :=
  if c.toNat = 304 then 'i'
  else if c.toNat = 8490 then 'k'
  else c.toLower

/-- Go `unicode.IsSpace`: the runes with the Unicode property White_Space. -/
def IsSpace (c : Char) : Bool :=
  let n := c.toNat
  decide (n = 9 ∨ n = 10 ∨ n = 11 ∨ n = 12 ∨ n = 13 ∨ n = 32 ∨ n = 133 ∨ n = 160 ∨ n = 5760
    ∨ (8192 ≤ n ∧ n ≤ 8202) ∨ n = 8232 ∨ n = 8233 ∨ n = 8239 ∨ n = 8287 ∨ n = 12288)

end unicode

namespace strings

/-- Go `strings.ToLower`. -/
def ToLower (s : String) : String := String.mk (s.data.map unicode.ToLower)

/-- The search of `strings.Index`: `off` is the byte offset of the text still to search. -/
def indexFrom (sep : List Char) : List Char → Nat → Int
  | [], off => if sep = [] then (off : Int) else -1
  | c :: cs, off =>
    if sep.isPrefixOf (c :: cs) then (off : Int) else indexFrom sep cs (off + c.utf8Size)

/-- Go `strings.Index(s, sep)`: the byte offset of the first occurrence of `sep`, or -1. -/
def Index (s sep : String) : Int := indexFrom sep.data s.data 0

/-- The characters that end within the first `n` bytes. -/
def takeBytes : List Char → Nat → List Char
  | [], _ => []
  | c :: cs, n => if c.utf8Size ≤ n then c :: takeBytes cs (n - c.utf8Size) else []

/-- The Go slice expression `s[:hi]`, for `hi` on a character boundary. -/
def slice (s : String) (hi : Int) : String := String.mk (takeBytes s.data hi.toNat)

/-- Go `strings.TrimSpace`. -/
def TrimSpace (s : String) : String :=
  String.mk ((((s.data.dropWhile unicode.IsSpace).reverse).dropWhile unicode.IsSpace).reverse)

/-- Go `strings.HasPrefix`. -/
def HasPrefix (s pre : String) : Bool := pre.data.isPrefixOf s.data

/-- Go `strings.TrimPrefix`. -/
def TrimPrefix (s pre : String) : String :=
  if pre.data.isPrefixOf s.data then String.mk (s.data.drop pre.data.length) else s

/-- Go `strings.TrimSuffix`. -/
def TrimSuffix (s suf : String) : String :=
  if suf.data.reverse.isPrefixOf s.data.reverse then
    String.mk (s.data.reverse.drop suf.data.length).reverse
  else s

/-- The pieces of a text between the occurrences of the character `sep`. -/
def splitChars (sep : Char) : List Char → List (List Char)
  | [] => [[]]
  | c :: cs =>
    if c = sep then [] :: splitChars sep cs
    else
      match splitChars sep cs with
      | [] => [[c]]
      | piece :: pieces => (c :: piece) :: pieces

/-- Go `strings.Split(s, string(sep))` for a one-character separator. -/
def Split (s : String) (sep : Char) : List String := (splitChars sep s.data).map String.mk

end strings

namespace strconv

/-- Whether a character is one of the decimal digits `0` to `9`. -/
def isDigit (c : Char) : Bool := decide (48 ≤ c.toNat ∧ c.toNat ≤ 57)

/-- The value of a run of decimal digits read after the value `acc`; `none` when a character
is not a digit. -/
def digitsFrom : List Char → Nat → Option Nat
  | [], acc => some acc
  | c :: cs, acc => if isDigit c then digitsFrom cs (10 * acc + (c.toNat - 48)) else none

/-- The value of a non-empty run of decimal digits. -/
def digits (cs : List Char) : Option Nat :=
  match cs with
  | [] => none
  | _ :: _ => digitsFrom cs 0

/-- Go `strconv.ParseInt(s, 10, 32)`: an optional sign, then decimal digits, within the range of
an `int32`; `none` is the error result. -/
def ParseInt32 (s : String) : Option Int :=
  let signed : Option Int :=
    match s.data with
    | '-' :: cs => (digits cs).map (fun n => -(n : Int))
    | '+' :: cs => (digits cs).map (fun n => (n : Int))
    | cs => (digits cs).map (fun n => (n : Int))
  match signed with
  | some v => if -2147483648 ≤ v ∧ v ≤ 2147483647 then some v else none
  | none => none

end strconv

/-! ## `lib/typing` -/

namespace ext

/-- Modelled from the spec: `ext.ExtendedTimeKindType` (lib/typing/ext, absent from src), the
sub-kind carried by an ExtendedTime kind: Date, Time or DateTime; `Unrecognised` stands for any
other value of the Go type (such as its zero value). -/
inductive ExtendedTimeKindType where
  | DateTimeKindType
  | DateKindType
  | TimeKindType
  | Unrecognised
deriving DecidableEq, Repr

/-- Modelled from the spec: `ext.NestedKind` (lib/typing/ext, absent from src), the details of an
ExtendedTime kind; only the field `Type` (here `Type_`) is read by the code under study. -/
structure NestedKind where
  Type_ : ExtendedTimeKindType
deriving DecidableEq, Repr

end ext

namespace decimal

/-- The type `decimal.DecimalDetails` of `decimal_test.go`: two `int32` fields. -/
structure DecimalDetails where
  scale : Int
  precision : Int
deriving DecidableEq, Repr

/-- The constant `decimal.PrecisionNotSpecified` of `decimal_test.go`. -/
def PrecisionNotSpecified : Int := -1

/-- Modelled from the spec: `DecimalDetails.isNumeric` (lib/typing/decimal, absent from src):
whether scale and precision fit BigQuery's native NUMERIC, whose documented limits are
`0 ≤ scale ≤ 9` and `max(1, scale) ≤ precision ≤ scale + 29`. -/
def DecimalDetails.isNumeric (d : DecimalDetails) : Bool :=
  if d.precision = PrecisionNotSpecified then false
  else if ¬ (0 ≤ d.scale ∧ d.scale ≤ 9) then false
  else decide (max 1 d.scale ≤ d.precision ∧ d.precision ≤ d.scale + 29)

/-- Modelled from the spec: `DecimalDetails.isBigNumeric` (lib/typing/decimal, absent from src):
whether scale and precision fit BigQuery's native BIGNUMERIC, whose documented limits are
`0 ≤ scale ≤ 38` and `max(1, scale) ≤ precision ≤ scale + 38`. -/
def DecimalDetails.isBigNumeric (d : DecimalDetails) : Bool :=
  if d.precision = PrecisionNotSpecified then false
  else if ¬ (0 ≤ d.scale ∧ d.scale ≤ 38) then false
  else decide (max 1 d.scale ≤ d.precision ∧ d.precision ≤ d.scale + 38)

/-- Go `fmt.Sprintf("%v", n)` of an `int32`. -/
def formatInt (n : Int) : String :=
  match n with
  | Int.ofNat k => Nat.repr k
  | Int.negSucc k => "-" ++ Nat.repr (k + 1)

/-- Modelled from the spec: `DecimalDetails.BigQueryKind` (lib/typing/decimal, absent from src):
the nearest native decimal type name for scale and precision, `NUMERIC(p, s)` when they fit
NUMERIC, `BIGNUMERIC(p, s)` when they fit BIGNUMERIC, and otherwise the dialect's fallback
type name `generic`, which the spec's words do not fix and which is a parameter here. -/
def DecimalDetails.BigQueryKind (generic : String) (d : DecimalDetails) : String :=
  if d.isNumeric then "NUMERIC(" ++ formatInt d.precision ++ ", " ++ formatInt d.scale ++ ")"
  else if d.isBigNumeric then
    "BIGNUMERIC(" ++ formatInt d.precision ++ ", " ++ formatInt d.scale ++ ")"
  else generic

end decimal

namespace typing

/-- Modelled from the spec: `typing.KindDetails` (lib/typing, absent from src), with the four
fields the code under study reads. `Kind` is the kind tag, a Go string (`DataTypeForKind`
returns it as the native type text). The three detail fields are Go pointers:
`replaceExceededValues` tests `OptionalStringPrecision` against nil, and `KindForDataType` fills
the details of the template `typing.ETime` through `NewKindDetailsFromTemplate`. -/
structure KindDetails where
  Kind : String
  ExtendedTimeDetails : Option ext.NestedKind
  ExtendedDecimalDetails : Option decimal.DecimalDetails
  OptionalStringPrecision : Option Int
deriving DecidableEq, Repr

/-- A kind template: a tag and no details. The tags of the templates below are the kind names of
lib/typing. -/
def template (tag : String) : KindDetails :=
  { Kind := tag, ExtendedTimeDetails := none, ExtendedDecimalDetails := none,
    OptionalStringPrecision := none }

/-- Modelled from the spec: the template `typing.Invalid` (lib/typing, absent from src). -/
def Invalid : KindDetails := template "invalid"

/-- Modelled from the spec: the template `typing.Float` (lib/typing, absent from src). -/
def Float : KindDetails := template "float"

/-- Modelled from the spec: the template `typing.Integer` (lib/typing, absent from src). -/
def Integer : KindDetails := template "int"

/-- Modelled from the spec: the template `typing.Boolean` (lib/typing, absent from src). -/
def Boolean : KindDetails := template "bool"

/-- Modelled from the spec: the template `typing.Array` (lib/typing, absent from src). -/
def Array : KindDetails := template "array"

/-- Modelled from the spec: the template `typing.Struct` (lib/typing, absent from src). -/
def Struct : KindDetails := template "struct"

/-- Modelled from the spec: the template `typing.ETime` (lib/typing, absent from src); the
sub-kind is filled in by `NewKindDetailsFromTemplate`. -/
def ETime : KindDetails := template "extended_time"

/-- Modelled from the spec: the template `typing.EDecimal` (lib/typing, absent from src); scale
and precision are filled in by `ParseNumeric`. -/
def EDecimal : KindDetails := template "decimal"

/-- Modelled from the spec: `typing.NewKindDetailsFromTemplate` (lib/typing, absent from src):
the template with the given sub-kind as its ExtendedTime details. -/
def NewKindDetailsFromTemplate (details : KindDetails) (extendedType : ext.ExtendedTimeKindType) :
    KindDetails :=
  { details with ExtendedTimeDetails := some { Type_ := extendedType } }

/-- Modelled from the spec: the constant `typing.DefaultPrefix` (lib/typing, absent from src),
the type name that `ParseNumeric` expects in front of the parameters. -/
def DefaultPrefix : String := "numeric"

/-- Modelled from the spec: `typing.ParseNumeric` (lib/typing, absent from src). It reads a
native type text of the form `prefix(precision, scale)` or `prefix(precision)`: a text that
does not start with `prefix`, has more than two parameters or a parameter that is not a
number is Invalid; a scale that is absent or zero makes an Integer; otherwise the result is
ExtendedDecimal carrying that precision and scale. -/
def ParseNumeric (pre valString : String) : KindDetails :=
  if ¬ strings.HasPrefix valString pre then Invalid
  else
    let valString := strings.TrimPrefix valString (pre ++ "(")
    let valString := strings.TrimSuffix valString ")"
    let parts := strings.Split valString ','
    if parts.length = 0 ∨ parts.length > 2 then Invalid
    else
      match parts.mapM (fun part => strconv.ParseInt32 (strings.TrimSpace part)) with
      | none => Invalid
      | some [] => Invalid
      | some [_] => Integer
      | some (precision :: scale :: _) =>
        if scale = 0 then Integer
        else { EDecimal with ExtendedDecimalDetails := some { scale := scale, precision := precision } }

/-- Modelled from the spec: the template `typing.String` (lib/typing, absent from src); it has
no optional precision. -/
def String : KindDetails := template "string"

end typing

/-! ## `clients/snowflake/staging.go` -/

namespace snowflake

/-- The constant `maxLobLength` of `replaceExceededValues`. -/
def maxLobLength : Int := 16777216

/-- The function `replaceExceededValues` of `staging.go`. -/
def replaceExceededValues (colVal : String) (kindDetails : typing.KindDetails) : String :=
  if kindDetails.Kind = typing.Struct.Kind then
    if int32 (len colVal) > maxLobLength then
      keyWrapper constants.ExceededValueMarker
    else colVal
  else if kindDetails.Kind = typing.String.Kind then
    let maxLength : Int :=
      match kindDetails.OptionalStringPrecision with
      | some p => p
      | none => maxLobLength
    if int32 (len colVal) > maxLength then
      constants.ExceededValueMarker
    else colVal
  else colVal

/-- The literal returned by `castColValStaging` for a nil value: the Go raw string of a
backslash, a backslash and `N`. -/
def nullSentinel : String := "\\\\N"

/-- The function `castColValStaging` of `staging.go`. The value is `none` for Go's `nil`;
`ToString` is `values.ToString` (lib/typing/values, absent from src), returning Go's pair. -/
def castColValStaging {α : Type} (ToString : α → typing.KindDetails → String × error)
    (colVal : Option α) (colKind : typing.KindDetails) : String × error :=
  match colVal with
  | none => (nullSentinel, none)
  | some v =>
    match ToString v colKind with
    | (_, some err) => ("", some err)
    | (value, none) => (replaceExceededValues value colKind, none)

end snowflake

/-! ## `clients/snowflake/writes.go` -/

namespace snowflake

/-- The `AdditionalCopyClause` that `Store.Append` passes to `shared.Append` (a Go raw string,
so its backslashes are literal). -/
def AdditionalCopyClause : String :=
  "FILE_FORMAT = (TYPE = 'csv' FIELD_DELIMITER= '\\t' FIELD_OPTIONALLY_ENCLOSED_BY='\"' NULL_IF='\\\\N' EMPTY_FIELD_AS_NULL=FALSE) PURGE = TRUE"

/-- The text that follows the first occurrence of `pat`, if there is one. -/
def afterInfix (pat : List Char) : List Char → Option (List Char)
  | [] => if pat = [] then some [] else none
  | c :: cs =>
    if pat.isPrefixOf (c :: cs) then some ((c :: cs).drop pat.length) else afterInfix pat cs

/-- The value of the option `key` in a file-format clause: the text between `key='` and the
next single quote. -/
def quotedOption (clause key : String) : Option String :=
  (afterInfix (key.data ++ ['=', Char.ofNat 39]) clause.data).map
    (fun rest => String.mk (rest.takeWhile (fun c => c != Char.ofNat 39)))

end snowflake

/-! ## `lib/typing/values` -/

namespace values

/-- A non-nil Go value of type `any`, as far as the rule modelled below tells values apart: a Go
string, or some other value (named by a number). -/
inductive Value where
  | str (s : String)
  | other (id : Nat)
deriving DecidableEq, Repr

/-- Modelled from the spec: `values.ToString` (lib/typing/values, absent from src), of which the
spec fixes the TOAST rule only: a value that is the TOAST-unavailable placeholder, cast as a
Struct kind, renders as the one-key wrapper holding the placeholder verbatim. Every other
rendering is left to `render`. The placeholder is `constants.ToastUnavailableValuePlaceholder`
(absent from src), a parameter here. -/
def ToString (placeholder : String) (render : Value → typing.KindDetails → String × error)
    (colVal : Value) (colKind : typing.KindDetails) : String × error :=
  if colKind.Kind = typing.Struct.Kind ∧ colVal = Value.str placeholder then
    (keyWrapper placeholder, none)
  else render colVal colKind

end values

/-! ## `lib/sql/bigquery.go` -/

namespace sql

/-- The method `BigQueryDialect.DataTypeForKind` of `bigquery.go`. `BigQueryKind` is the method
`DecimalDetails.BigQueryKind` (lib/typing/decimal, absent from src). The result is `none` when
the Go code dereferences a nil details pointer. -/
def BigQueryDialect.DataTypeForKind (BigQueryKind : decimal.DecimalDetails → String)
    (kindDetails : typing.KindDetails) (_ : Bool) : Option String :=
  if kindDetails.Kind = typing.Float.Kind then some "float64"
  else if kindDetails.Kind = typing.Array.Kind then some "array<string>"
  else if kindDetails.Kind = typing.Struct.Kind then some "json"
  else if kindDetails.Kind = typing.ETime.Kind then
    match kindDetails.ExtendedTimeDetails with
    | none => none
    | some details =>
      match details.Type_ with
      | ext.ExtendedTimeKindType.DateTimeKindType => some "timestamp"
      | ext.ExtendedTimeKindType.DateKindType => some "date"
      | ext.ExtendedTimeKindType.TimeKindType => some "time"
      | ext.ExtendedTimeKindType.Unrecognised => some kindDetails.Kind
  else if kindDetails.Kind = typing.EDecimal.Kind then
    match kindDetails.ExtendedDecimalDetails with
    | none => none
    | some details => some (BigQueryKind details)
  else some kindDetails.Kind

/-- The operand of the `switch` of `KindForDataType`, computed from the lower-cased type text:
the text before the first `(` and then before the first `<` (neither is cut at offset 0), with
the white space trimmed. -/
def BigQueryDialect.switchOperand (rawBqType : String) : String :=
  let bqType := rawBqType
  let idxStop : Int := len bqType
  let idxStop := if strings.Index bqType "(" > 0 then strings.Index bqType "(" else idxStop
  let bqType := strings.slice bqType idxStop
  let idxStop : Int := len bqType
  let idxStop := if strings.Index bqType "<" > 0 then strings.Index bqType "<" else idxStop
  strings.TrimSpace (strings.slice bqType idxStop)

/-- The method `BigQueryDialect.KindForDataType` of `bigquery.go`. `ParseNumeric` is the function
`typing.ParseNumeric` (lib/typing, absent from src). -/
def BigQueryDialect.KindForDataType (ParseNumeric : String → String → typing.KindDetails)
    (rawBqType : String) (_ : String) : typing.KindDetails × error :=
  let rawBqType := strings.ToLower rawBqType
  if len rawBqType = 0 then (typing.Invalid, none)
  else
    match BigQueryDialect.switchOperand rawBqType with
    | "numeric" =>
      if rawBqType = "numeric" ∨ rawBqType = "bignumeric" then (typing.EDecimal, none)
      else (ParseNumeric typing.DefaultPrefix rawBqType, none)
    | "bignumeric" =>
      if rawBqType = "bignumeric" then (typing.EDecimal, none)
      else (ParseNumeric "bignumeric" rawBqType, none)
    | "decimal" | "float" | "float64" | "bigdecimal" => (typing.Float, none)
    | "int" | "integer" | "int64" => (typing.Integer, none)
    | "varchar" | "string" => (typing.String, none)
    | "bool" | "boolean" => (typing.Boolean, none)
    | "struct" | "json" | "record" => (typing.Struct, none)
    | "array" => (typing.Array, none)
    | "datetime" | "timestamp" =>
      (typing.NewKindDetailsFromTemplate typing.ETime ext.ExtendedTimeKindType.DateTimeKindType, none)
    | "time" =>
      (typing.NewKindDetailsFromTemplate typing.ETime ext.ExtendedTimeKindType.TimeKindType, none)
    | "date" =>
      (typing.NewKindDetailsFromTemplate typing.ETime ext.ExtendedTimeKindType.DateKindType, none)
    | _ => (typing.Invalid, none)

/-- The case labels of the `switch` of `KindForDataType`: the table of native synonyms. -/
def BigQueryDialect.synonyms : List String :=
  ["numeric", "bignumeric", "decimal", "float", "float64", "bigdecimal", "int", "integer",
   "int64", "varchar", "string", "bool", "boolean", "struct", "json", "record", "array",
   "datetime", "timestamp", "time", "date"]

/-- The base name of a native type text in the words of the specification: the text is
lower-cased, its parameter suffix (everything from the first `(` or `<` on) is dropped, and
the white space around the rest is trimmed. -/
def BigQueryDialect.baseName (nativeType : String) : String :=
  strings.TrimSpace
    (String.mk ((strings.ToLower nativeType).data.takeWhile (fun c => c != '(' && c != '<')))

/-- The text kept by one cut of `KindForDataType`: the text before the first `x`, or the whole
text when `x` is absent or stands at offset 0. -/
def cutBefore (x : Char) (l : List Char) : List Char :=
  if l.head? = some x then l else l.takeWhile (fun c => c != x)

/-- The synonyms whose result does not read the parameters: all but numeric and bignumeric. -/
def BigQueryDialect.plainSynonyms : List String :=
  ["float", "float64", "decimal", "bigdecimal", "int", "integer", "int64", "varchar", "string",
   "bool", "boolean", "struct", "json", "record", "array", "datetime", "timestamp", "time",
   "date"]

/-- Whether `u` is an upper/lower-casing of `b`: the same length, and at each place the
character of `b` or its upper case. -/
def isCasingOf : List Char → List Char → Bool
  | [], [] => true
  | c :: cs, d :: ds => (c == d || c == d.toUpper) && isCasingOf cs ds
  | _, _ => false

/-- The kinds that `KindForDataType` returns for the synonyms other than numeric and
bignumeric. -/
def BigQueryDialect.plainKinds : List typing.KindDetails :=
  [typing.Float, typing.Integer, typing.String, typing.Boolean, typing.Struct, typing.Array,
   typing.NewKindDetailsFromTemplate typing.ETime ext.ExtendedTimeKindType.DateTimeKindType,
   typing.NewKindDetailsFromTemplate typing.ETime ext.ExtendedTimeKindType.TimeKindType,
   typing.NewKindDetailsFromTemplate typing.ETime ext.ExtendedTimeKindType.DateKindType]

end sql

/-! ## `lib/typing/columns`, `lib/optimization` and the environment of a load -/

namespace columns

/-- Modelled from the spec: `columns.Column` (lib/typing/columns, absent from src), the unit of
schema description: a name and a kind. -/
structure Column where
  name : String
  KindDetails : typing.KindDetails
deriving DecidableEq, Repr

/-- Modelled from the spec: `columns.NewColumn` (lib/typing/columns, absent from src). -/
def NewColumn (name : String) (kd : typing.KindDetails) : Column :=
  { name := name, KindDetails := kd }

/-- Modelled from the spec: the method `Column.Name` (lib/typing/columns, absent from src). -/
def Column.Name (c : Column) : String := c.name

end columns

namespace optimization

/-- A row of a batch: a Go `map[string]any`, as a list of keys with their values; a value is
`none` when it is Go's `nil`. -/
abbrev Row (α : Type) := List (String × Option α)

/-- The Go index expression `value[key]` on a row: `nil` when the key is absent. -/
def Row.index {α : Type} (value : Row α) (key : String) : Option α :=
  match value.lookup key with
  | some v => v
  | none => none

/-- Modelled from the spec: `partition.MergePredicates` (absent from src), of which the code
reads the field `PartitionField`. -/
structure MergePredicates where
  PartitionField : String
deriving DecidableEq, Repr

/-- Modelled from the spec: `optimization.TableData` (lib/optimization, absent from src), as far
as the code under study reads it: the valid columns in order
(`ReadOnlyInMemoryCols().ValidColumns()`), the rows (`Rows()`), and the additional merge
predicates of the topic configuration (`TopicConfig().AdditionalMergePredicates`). -/
structure TableData (α : Type) where
  ValidColumns : List columns.Column
  Rows : List (Row α)
  AdditionalMergePredicates : List MergePredicates

end optimization

namespace os

/-- The file system as explicit state: the paths that exist, each with the records that were
flushed to the file. -/
abbrev FileSystem := List (String × List (List String))

/-- Whether a path exists. -/
def FileSystem.Exists (fs : FileSystem) (path : String) : Bool :=
  (fs.lookup path).isSome

/-- The records held by the file at a path. -/
def FileSystem.contents (fs : FileSystem) (path : String) : Option (List (List String)) :=
  fs.lookup path

/-- A successful `os.RemoveAll(path)`. -/
def FileSystem.RemoveAll (fs : FileSystem) (path : String) : FileSystem :=
  fs.filter (fun entry => entry.1 != path)

/-- A successful `os.Create(path)`: the file exists and is empty. -/
def FileSystem.Create (fs : FileSystem) (path : String) : FileSystem :=
  (path, []) :: fs.RemoveAll path

/-- The file at `path` after the records were flushed to it. -/
def FileSystem.flush (fs : FileSystem) (path : String) (records : List (List String)) :
    FileSystem :=
  (path, records) :: fs.RemoveAll path

end os

namespace snowflake

/-- The outcomes of the calls that `PrepareTemporaryTable` makes to its environment, each the
error that the call returns (`none` for success): `AlterTable` for the temporary table,
`os.Create`, `writer.Write` of the record of each row (by the index of the row),
`writer.Error()` after `Flush`, `Exec` of the PUT statement, `Exec` of the COPY statement, and
`os.RemoveAll`. -/
structure Outcomes where
  alterTable : error
  create : error
  write : Nat → error
  flush : error
  put : error
  copy : error
  remove : error

/-- The inner loop of `writeTemporaryTableFile`: the cells of one row, cast in the order of the
columns; the first cast error ends the loop. -/
def castRow {α : Type} (ToString : α → typing.KindDetails → String × error)
    (value : optimization.Row α) : List columns.Column → Except String (List String)
  | [] => Except.ok []
  | col :: rest =>
    match castColValStaging ToString (value.index col.Name) col.KindDetails with
    | (_, some castErr) => Except.error castErr
    | (castedValue, none) =>
      match castRow ToString value rest with
      | Except.error castErr => Except.error castErr
      | Except.ok row => Except.ok (castedValue :: row)

/-- The outer loop of `writeTemporaryTableFile` from the row of index `i` on: each row is cast
and its record is written after the records `written`; a cast error or a write error ends
the loop. -/
def writeRows {α : Type} (ToString : α → typing.KindDetails → String × error)
    (out : Outcomes) (cols : List columns.Column) :
    List (optimization.Row α) → Nat → List (List String) → Except String (List (List String))
  | [], _, written => Except.ok written
  | value :: rest, i, written =>
    match castRow ToString value cols with
    | Except.error castErr => Except.error castErr
    | Except.ok row =>
      match out.write i with
      | some err => Except.error ("failed to write to csv: " ++ err)
      | none => writeRows ToString out cols rest (i + 1) (written ++ [row])

/-- The method `Store.writeTemporaryTableFile` of `staging.go`, on the file system `fs`; `fp` is
the path `filepath.Join(os.TempDir(), name + ".csv")`. The writer is buffered: the records
reach the file when `Flush` succeeds, and a return before that leaves the created file
empty. -/
def writeTemporaryTableFile {α : Type} (ToString : α → typing.KindDetails → String × error)
    (out : Outcomes) (fp : String) (tableData : optimization.TableData α)
    (fs : os.FileSystem) : (String × error) × os.FileSystem :=
  match out.create with
  | some err => (("", some err), fs)
  | none =>
    let fs := fs.Create fp
    match writeRows ToString out tableData.ValidColumns tableData.Rows 0 [] with
    | Except.error err => (("", some err), fs)
    | Except.ok records =>
      match out.flush with
      | some err => ((fp, some err), fs)
      | none => ((fp, none), fs.flush fp records)

/-- The deferred function of `PrepareTemporaryTable`: `os.RemoveAll(fp)`, whose error is only
logged. -/
def removeTransportFile (out : Outcomes) (fp : String) (fs : os.FileSystem) : os.FileSystem :=
  match out.remove with
  | some _ => fs
  | none => fs.RemoveAll fp

/-- The method `Store.PrepareTemporaryTable` of `staging.go`, on the file system `fs`: the
returned error and the file system at the return. The texts of the statements are not
modelled; the outcomes of their execution are given by `out`. -/
def PrepareTemporaryTable {α : Type} (ToString : α → typing.KindDetails → String × error)
    (out : Outcomes) (fp : String) (tableData : optimization.TableData α)
    (createTempTable : Bool) (fs : os.FileSystem) : error × os.FileSystem :=
  match createTempTable, out.alterTable with
  | true, some err => (some ("failed to create temp table: " ++ err), fs)
  | _, _ =>
    match writeTemporaryTableFile ToString out fp tableData fs with
    | ((_, some err), fs) => (some ("failed to load temporary table: " ++ err), fs)
    | ((fp, none), fs) =>
      match out.put with
      | some err =>
        (some ("failed to run PUT for temporary table: " ++ err), removeTransportFile out fp fs)
      | none =>
        match out.copy with
        | some err =>
          (some ("failed to run copy into temporary table: " ++ err),
            removeTransportFile out fp fs)
        | none => (none, removeTransportFile out fp fs)

end snowflake

/-! ## `lib/sql/bigquery.go`: TOAST expression and error classification -/

namespace strings

/-- Go `strings.Contains(s, substr)`, which is `Index(s, substr) >= 0`. -/
def Contains (s substr : String) : Bool := decide (Index s substr ≥ 0)

end strings

namespace sql

/-- The method `BigQueryDialect.IsColumnAlreadyExistsErr` of `bigquery.go`. The result is `none`
when the error is nil, on which `err.Error()` panics. -/
def BigQueryDialect.IsColumnAlreadyExistsErr (err : error) : Option Bool :=
  match err with
  | none => none
  | some message => some (strings.Contains message "Column already exists")

/-- The method `BigQueryDialect.BuildProcessToastStructColExpression` of `bigquery.go`: the format
text with `colName`, the placeholder, `colName` and `colName` in place of its four verbs. The
placeholder is `constants.ToastUnavailableValuePlaceholder` (absent from src), a parameter
here. -/
def BigQueryDialect.BuildProcessToastStructColExpression
    (ToastUnavailableValuePlaceholder colName : String) : String :=
  "CASE WHEN COALESCE(TO_JSON_STRING(cc." ++ colName ++ ") != '\x7b\"key\":\""
    ++ ToastUnavailableValuePlaceholder ++ "\"\x7d', true) THEN cc." ++ colName
    ++ " ELSE c." ++ colName ++ " END"

/-- The SQL expressions that the TOAST expression is made of. -/
inductive SqlExpr where
  | column (tableAlias name : String)
  | literal (text : String)
  | trueLiteral
  | toJsonString (e : SqlExpr)
  | notEqual (a b : SqlExpr)
  | coalesce (a b : SqlExpr)
  | caseWhen (cond thenExpr elseExpr : SqlExpr)
deriving DecidableEq, Repr

/-- The text of a SQL expression (a text literal is written between single quotes as it
is). -/
def SqlExpr.render : SqlExpr → String
  | SqlExpr.column tableAlias name => tableAlias ++ "." ++ name
  | SqlExpr.literal text => "'" ++ text ++ "'"
  | SqlExpr.trueLiteral => "true"
  | SqlExpr.toJsonString e => "TO_JSON_STRING(" ++ e.render ++ ")"
  | SqlExpr.notEqual a b => a.render ++ " != " ++ b.render
  | SqlExpr.coalesce a b => "COALESCE(" ++ a.render ++ ", " ++ b.render ++ ")"
  | SqlExpr.caseWhen cond thenExpr elseExpr =>
    "CASE WHEN " ++ cond.render ++ " THEN " ++ thenExpr.render ++ " ELSE " ++ elseExpr.render
      ++ " END"

/-- A SQL value that is not NULL: a text, a boolean, or a stored column value. -/
inductive SqlValue (V : Type) where
  | text (s : String)
  | bool (b : Bool)
  | stored (v : V)
deriving DecidableEq, Repr

/-- The value of a SQL expression, `none` for NULL. `cols` gives the value of a column of an
aliased table and `toJson` the text that `TO_JSON_STRING` gives for a value. A comparison with
NULL is NULL, `COALESCE` takes the first value that is not NULL, and `CASE WHEN` takes the
`ELSE` branch unless the condition is true. -/
def SqlExpr.eval {V : Type} [DecidableEq V] (cols : String → String → Option (SqlValue V))
    (toJson : Option (SqlValue V) → Option String) : SqlExpr → Option (SqlValue V)
  | SqlExpr.column tableAlias name => cols tableAlias name
  | SqlExpr.literal text => some (SqlValue.text text)
  | SqlExpr.trueLiteral => some (SqlValue.bool true)
  | SqlExpr.toJsonString e => (toJson (e.eval cols toJson)).map SqlValue.text
  | SqlExpr.notEqual a b =>
    match a.eval cols toJson, b.eval cols toJson with
    | some x, some y => some (SqlValue.bool (x != y))
    | _, _ => none
  | SqlExpr.coalesce a b =>
    match a.eval cols toJson with
    | some x => some x
    | none => b.eval cols toJson
  | SqlExpr.caseWhen cond thenExpr elseExpr =>
    match cond.eval cols toJson with
    | some (SqlValue.bool true) => thenExpr.eval cols toJson
    | _ => elseExpr.eval cols toJson

/-- The expression that `BuildProcessToastStructColExpression` writes, as a syntax tree. -/
def toastExpression (placeholder colName : String) : SqlExpr :=
  SqlExpr.caseWhen
    (SqlExpr.coalesce
      (SqlExpr.notEqual (SqlExpr.toJsonString (SqlExpr.column "cc" colName))
        (SqlExpr.literal (keyWrapper placeholder)))
      SqlExpr.trueLiteral)
    (SqlExpr.column "cc" colName)
    (SqlExpr.column "c" colName)

end sql

/-! ## `lib/typing/decimal`: decimal values -/

namespace apd

/-- Modelled from the spec: an exact base-10 value (`apd.Decimal` of the library that
`decimal_test.go` builds values with): a sign, the digits as a number, and the exponent of
ten; a value written with `k` digits after the decimal point has the exponent `-k`. -/
structure Decimal where
  Negative : Bool
  Coeff : Nat
  Exponent : Int
deriving DecidableEq, Repr

end apd

namespace numbers

/-- Modelled from the spec: `numbers.MustParseDecimal` (lib/numbers, absent from src) on the
texts of `decimal_test.go`: an optional sign, digits, and optionally a point and digits. The
digits after the point, trailing zeros included, give the exponent. `none` is the panic on a
text that is not of this form. -/
def MustParseDecimal (value : String) : Option apd.Decimal :=
  let negative : Bool := value.data.head? = some '-'
  let unsigned : List Char :=
    match value.data with
    | '-' :: cs => cs
    | '+' :: cs => cs
    | cs => cs
  match strings.splitChars '.' unsigned with
  | [whole] =>
    (strconv.digits whole).map (fun n =>
      { Negative := negative, Coeff := n, Exponent := 0 })
  | [whole, fraction] =>
    (strconv.digits (whole ++ fraction)).map (fun n =>
      { Negative := negative, Coeff := n, Exponent := -(fraction.length : Int) })
  | _ => none

end numbers

namespace decimal

/-- Modelled from the spec: `decimal.Decimal` (lib/typing/decimal, absent from src): an exact
value with a precision, which is `PrecisionNotSpecified` when none was given. -/
structure Decimal where
  precision : Int
  value : apd.Decimal
deriving DecidableEq, Repr

/-- Modelled from the spec: the method `Decimal.Scale` (lib/typing/decimal, absent from src):
the count of digits after the decimal point of the value. -/
def Decimal.Scale (d : Decimal) : Int := -d.value.Exponent

/-- Modelled from the spec: `decimal.NewDecimalWithPrecision` (lib/typing/decimal, absent from
src). The scale is inferred from the value; the precision is the requested one, except that a
specified precision below the scale is raised above it. The spec's words raise it to the
scale; the assertion `Precision < scale` of `TestNewDecimalWithPrecision` (12.34 with precision
1 has precision 3) fixes the raised precision as the scale plus one, and the assertion for
`PrecisionNotSpecified` keeps an unspecified precision as it is. -/
def NewDecimalWithPrecision (value : apd.Decimal) (precision : Int) : Decimal :=
  let scale : Int := -value.Exponent
  if scale > precision ∧ precision ≠ PrecisionNotSpecified then
    { precision := scale + 1, value := value }
  else { precision := precision, value := value }

/-- Modelled from the spec: `decimal.NewDecimal` (lib/typing/decimal, absent from src): the
precision defaults to unspecified. -/
def NewDecimal (value : apd.Decimal) : Decimal :=
  NewDecimalWithPrecision value PrecisionNotSpecified

/-- Modelled from the spec: the method `Decimal.Details` (lib/typing/decimal, absent from
src). -/
def Decimal.Details (d : Decimal) : DecimalDetails :=
  { scale := d.Scale, precision := d.precision }

/-- The details that `decimal_test.go` reads for a text and a requested precision:
`NewDecimalWithPrecision(numbers.MustParseDecimal(text), precision).Details()`. -/
def detailsOfText (text : String) (precision : Int) : Option DecimalDetails :=
  (numbers.MustParseDecimal text).map (fun v => (NewDecimalWithPrecision v precision).Details)

/-- The details that `decimal_test.go` reads for a text:
`NewDecimal(numbers.MustParseDecimal(text)).Details()`. -/
def detailsOfPlainText (text : String) : Option DecimalDetails :=
  (numbers.MustParseDecimal text).map (fun v => (NewDecimal v).Details)

/-- The assertions of `TestNewDecimalWithPrecision`, `TestDecimal_Scale` and
`TestDecimal_Details` of `decimal_test.go`: the text, the requested precision if there is one,
and the expected scale and precision. -/
def testAssertions : List (String × Option Int × Int × Int) :=
  [ ("12.34", some PrecisionNotSpecified, 2, -1),
    ("12.34", some 2, 2, 2),
    ("12.34", some 1, 2, 3),
    ("12.34", some 4, 2, 4),
    ("0", none, 0, -1),
    ("12345", none, 0, -1),
    ("12300", none, 0, -1),
    ("12300.0", none, 1, -1),
    ("12300.00", none, 2, -1),
    ("12345.12", none, 2, -1),
    ("-12345.123", none, 3, -1),
    ("-12", none, 0, -1),
    ("0", some 10, 0, 10),
    ("12345", some 10, 0, 10),
    ("-12", some 10, 0, 10),
    ("12345.12", some 10, 2, 10),
    ("-12345.123", some 10, 3, 10) ]

/-- Whether an assertion of `decimal_test.go` holds. -/
def assertionHolds (a : String × Option Int × Int × Int) : Bool :=
  match a with
  | (text, some precision, scale, expected) =>
    detailsOfText text precision = some { scale := scale, precision := expected }
  | (text, none, scale, expected) =>
    detailsOfPlainText text = some { scale := scale, precision := expected }

end decimal

/-- Go `max` on two `int32`. -/
def goMax (a b : Int) : Int := if a ≥ b then a else b

/-! ## `clients/snowflake/writes.go`: merge -/

namespace sql

/-- Modelled from the spec: the operator `sql.Equal` (lib/sql, absent from src). -/
def Equal : String := "="

/-- Modelled from the spec: `sql.QuoteTableAliasColumn` (lib/sql, absent from src): the column
of an aliased table, its name quoted by the dialect. -/
def QuoteTableAliasColumn (tableAlias : String) (column : columns.Column)
    (QuoteIdentifier : String → String) : String :=
  tableAlias ++ "." ++ QuoteIdentifier column.Name

/-- Modelled from the spec: `sql.BuildColumnComparison` (lib/sql, absent from src): the
comparison of one column between two aliased tables. -/
def BuildColumnComparison (column : columns.Column) (tableAlias1 tableAlias2 operator : String)
    (QuoteIdentifier : String → String) : String :=
  QuoteTableAliasColumn tableAlias1 column QuoteIdentifier ++ " " ++ operator ++ " "
    ++ QuoteTableAliasColumn tableAlias2 column QuoteIdentifier

/-- Modelled from the spec: `sql.BuildColumnComparisons` (lib/sql, absent from src): one
comparison for each column, in the order of the columns. -/
def BuildColumnComparisons (cols : List columns.Column)
    (tableAlias1 tableAlias2 operator : String) (QuoteIdentifier : String → String) :
    List String :=
  cols.map (fun column =>
    BuildColumnComparison column tableAlias1 tableAlias2 operator QuoteIdentifier)

end sql

namespace types

/-- Modelled from the spec: `types.MergeOpts` (lib/destination/types, absent from src), of which
the code sets the field `AdditionalEqualityStrings`. -/
structure MergeOpts where
  AdditionalEqualityStrings : List String
deriving DecidableEq, Repr

end types

namespace snowflake

/-- The zero value of `columns.Column`, with which `make` fills a new slice. -/
def zeroColumn : columns.Column :=
  { name := "", KindDetails := typing.template "" }

/-- The loop of `additionalEqualityStrings` from the predicate of index `i` on: the column of
each predicate is stored at the index of the predicate. -/
def assignColumns (cols : List columns.Column) :
    Nat → List optimization.MergePredicates → List columns.Column
  | _, [] => cols
  | i, additionalMergePredicate :: rest =>
    assignColumns
      (cols.set i (columns.NewColumn additionalMergePredicate.PartitionField typing.Invalid))
      (i + 1) rest

/-- The method `Store.additionalEqualityStrings` of `writes.go`. `TargetAlias` and
`StagingAlias` are the constants of that name (lib/config/constants, absent from src) and
`QuoteIdentifier` is the method of the dialect of the store; they are parameters here. -/
def additionalEqualityStrings {α : Type} (TargetAlias StagingAlias : String)
    (QuoteIdentifier : String → String) (tableData : optimization.TableData α) : List String :=
  let cols := List.replicate tableData.AdditionalMergePredicates.length zeroColumn
  let cols := assignColumns cols 0 tableData.AdditionalMergePredicates
  sql.BuildColumnComparisons cols TargetAlias StagingAlias sql.Equal QuoteIdentifier

/-- The method `Store.Merge` of `writes.go`; `sharedMerge` is `shared.Merge` (clients/shared,
absent from src) for the store. -/
def Merge {α : Type} (sharedMerge : optimization.TableData α → types.MergeOpts → error)
    (TargetAlias StagingAlias : String) (QuoteIdentifier : String → String)
    (tableData : optimization.TableData α) : error :=
  sharedMerge tableData
    { AdditionalEqualityStrings :=
        additionalEqualityStrings TargetAlias StagingAlias QuoteIdentifier tableData }

end snowflake

/-! # Properties

## Go built-ins -/

/-- A length below `2^31` is unchanged by the conversion to `int32`. -/
theorem int32_of_small (n : Nat) (h : n < 2147483648) : int32 (n : Int) = n := by
  unfold int32
  omega

/-- The conversion to `int32` never increases a length. -/
theorem int32_le_self (n : Nat) : int32 (n : Int) ≤ n := by
  unfold int32
  omega

/-- The text of `n` letters `a` has `n` bytes. -/
theorem len_stringsRepeat_a (n : Nat) : len (stringsRepeat 'a' n) = n := by
  induction n with
  | zero => rfl
  | succ k ih =>
    have h1 : Char.utf8Size 'a' = 1 := by decide
    simp only [len, stringsRepeat, String.utf8ByteSize_mk, List.replicate_succ,
      String.utf8Len_cons, h1] at ih ⊢
    omega

/-! ## `replaceExceededValues` and `castColValStaging` -/

namespace snowflake

/-- On a Struct kind `replaceExceededValues` compares the wrapped length with `maxLobLength`. -/
theorem replaceExceededValues_struct (v : String) (kind : typing.KindDetails)
    (hk : kind.Kind = typing.Struct.Kind) :
    replaceExceededValues v kind =
      if int32 (len v) > maxLobLength then keyWrapper constants.ExceededValueMarker else v := by
  simp [replaceExceededValues, hk]

/-- On a String kind `replaceExceededValues` compares the wrapped length with the optional
precision, or with `maxLobLength` when there is none. -/
theorem replaceExceededValues_string (v : String) (kind : typing.KindDetails)
    (hk : kind.Kind = typing.String.Kind) :
    replaceExceededValues v kind =
      if int32 (len v) > kind.OptionalStringPrecision.getD maxLobLength then
        constants.ExceededValueMarker
      else v := by
  have hne : ¬ typing.String.Kind = typing.Struct.Kind := by decide
  cases hp : kind.OptionalStringPrecision <;>
    simp [replaceExceededValues, hk, hne, hp]

/-- On every other kind `replaceExceededValues` returns the value. -/
theorem replaceExceededValues_other (v : String) (kind : typing.KindDetails)
    (h1 : kind.Kind ≠ typing.Struct.Kind) (h2 : kind.Kind ≠ typing.String.Kind) :
    replaceExceededValues v kind = v := by
  simp [replaceExceededValues, h1, h2]

/-- Claim C1: `replaceExceededValues` is the identity at or below the limit. For a Struct kind
and a value of at most 16777216 bytes, for a String kind without precision and a value of at
most 16777216 bytes, and for a String kind with precision `p` and a value of at most `p` bytes,
the value is returned unchanged; a value whose length is exactly the limit is among them. -/
theorem replaceExceededValues_identity_within_limit (v : String) (kind : typing.KindDetails)
    (h : (kind.Kind = typing.Struct.Kind ∧ len v ≤ 16777216) ∨
      (kind.Kind = typing.String.Kind ∧ kind.OptionalStringPrecision = none ∧
        len v ≤ 16777216) ∨
      (kind.Kind = typing.String.Kind ∧
        ∃ p : Int, kind.OptionalStringPrecision = some p ∧ (len v : Int) ≤ p)) :
    replaceExceededValues v kind = v := by
  have hle := int32_le_self (len v)
  rcases h with ⟨hk, hl⟩ | ⟨hk, hp, hl⟩ | ⟨hk, p, hp, hl⟩
  · rw [replaceExceededValues_struct v kind hk, if_neg]
    unfold maxLobLength; omega
  · rw [replaceExceededValues_string v kind hk, hp, if_neg]
    simp only [Option.getD_none, maxLobLength]; omega
  · rw [replaceExceededValues_string v kind hk, hp, if_neg]
    simp only [Option.getD_some]; omega

/-- The boundary case of C1: a value of exactly 5 bytes under a String precision of 5. -/
theorem replaceExceededValues_identity_within_limit_witness :
    len "hello" ≤ 5 ∧
    replaceExceededValues "hello" { typing.String with OptionalStringPrecision := some 5 } = "hello" :=
  ⟨by decide, replaceExceededValues_identity_within_limit "hello"
    { typing.String with OptionalStringPrecision := some 5 }
    (Or.inr (Or.inr ⟨rfl, 5, rfl, by decide⟩))⟩

/-- The text of `n` letters `a` differs from every text of another length. -/
theorem stringsRepeat_a_ne_of_len (n : Nat) (s : String) (h : len s ≠ n) :
    stringsRepeat 'a' n ≠ s := by
  intro he
  rw [← he, len_stringsRepeat_a] at h
  exact h rfl

/-- Claim C2, evaluated where it fails: a value of 2147483648 bytes is longer than the limit
16777216, yet `int32(len(colVal))` wraps to a negative number, so `replaceExceededValues` returns
the value itself, for the String kind and for the Struct kind, and not the marker or the
wrapper. -/
theorem replaceExceededValues_unmasked_at_int32_wrap :
    len (stringsRepeat 'a' 2147483648) > 16777216 ∧
    replaceExceededValues (stringsRepeat 'a' 2147483648) typing.String =
      stringsRepeat 'a' 2147483648 ∧
    stringsRepeat 'a' 2147483648 ≠ constants.ExceededValueMarker ∧
    replaceExceededValues (stringsRepeat 'a' 2147483648) typing.Struct =
      stringsRepeat 'a' 2147483648 ∧
    stringsRepeat 'a' 2147483648 ≠ keyWrapper constants.ExceededValueMarker := by
  refine ⟨?_, ?_, ?_, ?_, ?_⟩
  · rw [len_stringsRepeat_a]; omega
  · rw [replaceExceededValues_string _ _ rfl, len_stringsRepeat_a, if_neg]
    simp [int32, typing.String, typing.template, maxLobLength]
  · exact stringsRepeat_a_ne_of_len _ _ (by decide)
  · rw [replaceExceededValues_struct _ _ rfl, len_stringsRepeat_a, if_neg]
    simp [int32, maxLobLength]
  · exact stringsRepeat_a_ne_of_len _ _ (by decide)

/-- Below `2^31` bytes the masking of C2 holds: a String value longer than its limit becomes the
marker, a Struct value longer than 16777216 bytes becomes the wrapper. -/
theorem replaceExceededValues_masks_below_wrap (v : String) (kind : typing.KindDetails)
    (hlen : len v < 2147483648) :
    (kind.Kind = typing.String.Kind →
      (len v : Int) > kind.OptionalStringPrecision.getD 16777216 →
      replaceExceededValues v kind = constants.ExceededValueMarker) ∧
    (kind.Kind = typing.Struct.Kind → len v > 16777216 →
      replaceExceededValues v kind = keyWrapper constants.ExceededValueMarker) := by
  have h32 := int32_of_small (len v) hlen
  constructor
  · intro hk hl
    rw [replaceExceededValues_string v kind hk, if_pos]
    rw [h32]; exact hl
  · intro hk hl
    rw [replaceExceededValues_struct v kind hk, if_pos]
    rw [h32]; unfold maxLobLength; omega

/-- The scenario of C2: a text of 70,000 characters cast as String with a precision of 65,535
becomes the marker. -/
theorem replaceExceededValues_scenario_70000 :
    replaceExceededValues (stringsRepeat 'a' 70000)
      { typing.String with OptionalStringPrecision := some 65535 }
      = constants.ExceededValueMarker := by
  rw [replaceExceededValues_string (stringsRepeat 'a' 70000)
    { typing.String with OptionalStringPrecision := some 65535 } rfl, len_stringsRepeat_a, if_pos]
  simp [int32]

/-- Claim C3 fails: a value of 16777217 bytes of Array kind is longer than the semi-structured
limit, and `replaceExceededValues` does not return the wrapper for it. -/
theorem replaceExceededValues_array_counterexample :
    len (stringsRepeat 'a' 16777217) > 16777216 ∧
    replaceExceededValues (stringsRepeat 'a' 16777217) typing.Array ≠
      keyWrapper constants.ExceededValueMarker := by
  constructor
  · rw [len_stringsRepeat_a]; omega
  · rw [replaceExceededValues_other _ _ (by decide) (by decide)]
    exact stringsRepeat_a_ne_of_len _ _ (by decide)

/-- Claim C3, amended: an Array-kind value is never masked; `replaceExceededValues` returns it
unchanged whatever its length. -/
theorem replaceExceededValues_array_identity (v : String) :
    replaceExceededValues v typing.Array = v :=
  replaceExceededValues_other v typing.Array (by decide) (by decide)

/-- Claim C4: for every kind, casting `nil` returns no error and exactly the NULL sentinel, the
three characters backslash, backslash, `N`; and that text is the value of `NULL_IF` in the COPY
clause of `Store.Append`. -/
theorem castColValStaging_nil {α : Type} (ToString : α → typing.KindDetails → String × error)
    (k : typing.KindDetails) :
    castColValStaging ToString none k = (nullSentinel, none) ∧
    nullSentinel.data = ['\\', '\\', 'N'] ∧
    quotedOption AdditionalCopyClause "NULL_IF" = some nullSentinel :=
  ⟨rfl, by decide, by decide⟩

/-- Claim C5: casting the TOAST-unavailable placeholder as a Struct kind returns, with no error,
the wrapper holding the placeholder verbatim, and the masking step leaves that wrapper
unchanged. The placeholder is any text whose wrapper is within the limit of 16777216 bytes. -/
theorem castColValStaging_toast (placeholder : String)
    (render : values.Value → typing.KindDetails → String × error)
    (hsize : len (keyWrapper placeholder) ≤ 16777216) :
    castColValStaging (values.ToString placeholder render)
        (some (values.Value.str placeholder)) typing.Struct
      = (keyWrapper placeholder, none) ∧
    replaceExceededValues (keyWrapper placeholder) typing.Struct = keyWrapper placeholder := by
  have hid : replaceExceededValues (keyWrapper placeholder) typing.Struct
      = keyWrapper placeholder := by
    have hle := int32_le_self (len (keyWrapper placeholder))
    rw [replaceExceededValues_struct _ _ rfl, if_neg]
    unfold maxLobLength; omega
  refine ⟨?_, hid⟩
  simp [castColValStaging, values.ToString, hid]

/-- Claim C5 at the placeholder `__debezium_unavailable_value`. -/
theorem castColValStaging_toast_witness :
    len (keyWrapper "__debezium_unavailable_value") ≤ 16777216 ∧
    castColValStaging (values.ToString "__debezium_unavailable_value" (fun _ _ => ("", none)))
        (some (values.Value.str "__debezium_unavailable_value")) typing.Struct
      = ("\x7b\"key\":\"__debezium_unavailable_value\"\x7d", none) :=
  ⟨by decide, (castColValStaging_toast "__debezium_unavailable_value" (fun _ _ => ("", none))
    (by decide)).1⟩

/-- Claim C6: for a non-nil value, `castColValStaging` fails exactly when `values.ToString`
fails, and then returns that error with the empty text; otherwise it returns, with no error,
`replaceExceededValues` of the rendered text. -/
theorem castColValStaging_non_nil {α : Type} (ToString : α → typing.KindDetails → String × error)
    (v : α) (k : typing.KindDetails) :
    ((castColValStaging ToString (some v) k).2 ≠ none ↔ (ToString v k).2 ≠ none) ∧
    castColValStaging ToString (some v) k =
      (match (ToString v k).2 with
       | some err => ("", some err)
       | none => (replaceExceededValues (ToString v k).1 k, none)) := by
  rcases hts : ToString v k with ⟨text, _ | err⟩ <;> simp [castColValStaging, hts]

end snowflake

/-! ## Go's `strings` on lists of characters -/

namespace strings

/-- A one-character pattern starts a text exactly when it is the first character. -/
theorem isPrefixOf_singleton (x c : Char) (cs : List Char) :
    [x].isPrefixOf (c :: cs) = (x == c) := by
  simp [List.isPrefixOf]

/-- A first character other than `x` is kept by the search for `x`. -/
theorem takeWhile_ne_cons (x c : Char) (cs : List Char) (h : c ≠ x) :
    List.takeWhile (fun d => d != x) (c :: cs) = c :: List.takeWhile (fun d => d != x) cs :=
  List.takeWhile_cons_of_pos (by simpa using h)

/-- A text without `x` is kept whole by the search for `x`. -/
theorem takeWhile_ne_self (x : Char) (l : List Char) (h : x ∉ l) :
    List.takeWhile (fun d => d != x) l = l := by
  rw [List.takeWhile_eq_self_iff]
  intro c hc
  have : c ≠ x := fun e => h (e ▸ hc)
  simpa using this

/-- `strings.Index` for a one-character pattern: the byte length of the text before the first
occurrence, or -1. -/
theorem indexFrom_singleton (x : Char) (l : List Char) (off : Nat) :
    indexFrom [x] l off =
      if x ∈ l then ((off + String.utf8Len (l.takeWhile (fun c => c != x)) : Nat) : Int)
      else -1 := by
  induction l generalizing off with
  | nil => simp [indexFrom]
  | cons c cs ih =>
    unfold indexFrom
    rw [isPrefixOf_singleton]
    by_cases h : x = c
    · subst h; simp
    · have h' : c ≠ x := fun e => h e.symm
      simp only [beq_iff_eq, h, if_false, ih, List.mem_cons, false_or]
      rw [takeWhile_ne_cons x c cs h']
      by_cases hm : x ∈ cs
      · simp only [hm, if_true, String.utf8Len_cons]
        congr 1
        omega
      · simp [hm]

/-- Slicing at the byte length of a leading part gives that part. -/
theorem takeBytes_append_utf8Len (a b : List Char) :
    takeBytes (a ++ b) (String.utf8Len a) = a := by
  induction a with
  | nil =>
    cases b with
    | nil => rfl
    | cons c cs =>
      have := Char.utf8Size_pos c
      simp only [List.nil_append, String.utf8Len_nil, takeBytes]
      rw [if_neg (by omega)]
  | cons c cs ih =>
    simp [takeBytes, ih]

/-- Slicing at the byte length of the text gives the text. -/
theorem takeBytes_utf8Len (a : List Char) : takeBytes a (String.utf8Len a) = a := by
  simpa using takeBytes_append_utf8Len a []

/-- Slicing at the byte length of the text before a character gives that text. -/
theorem takeBytes_takeWhile (q : Char → Bool) (l : List Char) :
    takeBytes l (String.utf8Len (l.takeWhile q)) = l.takeWhile q := by
  have key := takeBytes_append_utf8Len (l.takeWhile q) (l.dropWhile q)
  rwa [List.takeWhile_append_dropWhile] at key

/-- The cut performed by `KindForDataType` at the first `x`, on the list of characters. -/
theorem slice_at_index (x : Char) (l : List Char) :
    slice (String.mk l)
        (if Index (String.mk l) (String.mk [x]) > 0 then Index (String.mk l) (String.mk [x])
         else (len (String.mk l) : Int))
      = String.mk (if l.head? = some x then l else l.takeWhile (fun c => c != x)) := by
  simp only [Index, indexFrom_singleton, slice, len, String.utf8ByteSize_mk, Nat.zero_add]
  by_cases hm : x ∈ l
  · simp only [hm, if_true]
    cases l with
    | nil => simp at hm
    | cons c cs =>
      by_cases hc : c = x
      · subst hc
        have h0 : List.takeWhile (fun d => d != c) (c :: cs) = [] := by
          simp [List.takeWhile]
        simp only [h0, String.utf8Len_nil, List.head?_cons, if_true]
        simp only [Nat.cast_zero, gt_iff_lt, lt_self_iff_false, if_false, Int.toNat_ofNat,
          takeBytes_utf8Len]
      · have hpos : 0 < String.utf8Len (List.takeWhile (fun d => d != x) (c :: cs)) := by
          have := Char.utf8Size_pos c
          rw [takeWhile_ne_cons x c cs hc, String.utf8Len_cons]; omega
        simp only [List.head?_cons, Option.some.injEq, hc, if_false]
        rw [if_pos (by exact_mod_cast hpos)]
        simp only [Int.toNat_ofNat]
        rw [takeBytes_takeWhile]
  · have hhead : ¬ l.head? = some x := by
      intro h
      cases l with
      | nil => simp at h
      | cons c cs => simp at h; subst h; simp at hm
    simp only [hm, if_false, hhead, takeWhile_ne_self x l hm]
    simp [takeBytes_utf8Len]

end strings

/-! ## `KindForDataType` -/

namespace sql
open strings

/-- The switch operand on the list of characters: the two cuts, then `TrimSpace`. -/
theorem switchOperand_mk (l : List Char) :
    BigQueryDialect.switchOperand (String.mk l) =
      TrimSpace (String.mk (sql.cutBefore '<' (sql.cutBefore '(' l))) := by
  have h1 : "(" = String.mk ['('] := rfl
  have h2 : "<" = String.mk ['<'] := rfl
  simp only [BigQueryDialect.switchOperand, h1, h2, slice_at_index, sql.cutBefore]

/-- Every branch of `KindForDataType` returns a nil error. -/
theorem KindForDataType_error (pn : String → String → typing.KindDetails) (s extra : String) :
    (BigQueryDialect.KindForDataType pn s extra).2 = none := by
  unfold BigQueryDialect.KindForDataType
  simp only
  by_cases hlen : len (ToLower s) = 0
  · rw [if_pos hlen]
  · rw [if_neg hlen]
    split <;> (try split_ifs) <;> rfl

/-- An operand outside the synonym table reaches the default branch. -/
theorem KindForDataType_default (pn : String → String → typing.KindDetails) (s extra : String)
    (h : BigQueryDialect.switchOperand (ToLower s) ∉ BigQueryDialect.synonyms) :
    BigQueryDialect.KindForDataType pn s extra = (typing.Invalid, none) := by
  unfold BigQueryDialect.KindForDataType
  simp only
  by_cases hlen : len (ToLower s) = 0
  · rw [if_pos hlen]
  · rw [if_neg hlen]
    split <;> first | rfl | (rename_i heq; rw [heq] at h; exact absurd (by decide) h)

end sql

namespace strings

/-- `TrimSpace` drops the leading and the trailing white space. -/
theorem TrimSpace_data (l : List Char) :
    (TrimSpace (String.mk l)).data = List.rdropWhile unicode.IsSpace (l.dropWhile unicode.IsSpace) :=
  rfl

/-- A text that starts with a character that is not white space keeps it as first character
under `TrimSpace`, unless nothing is left. -/
theorem TrimSpace_head (h : Char) (t : List Char) (hh : unicode.IsSpace h = false) :
    (TrimSpace (String.mk (h :: t))).data = [] ∨
      (TrimSpace (String.mk (h :: t))).data.head? = some h := by
  rw [TrimSpace_data, List.dropWhile_cons_of_neg (by simp [hh])]
  have hp := List.rdropWhile_prefix unicode.IsSpace (l := h :: t)
  rcases List.prefix_cons_iff.mp hp with h0 | ⟨t', ht', _⟩
  · exact Or.inl h0
  · right; rw [ht']; rfl

/-- Two successive searches stop at the first of the two characters. -/
theorem takeWhile_takeWhile_bne (x y : Char) (l : List Char) :
    List.takeWhile (fun c => c != y) (List.takeWhile (fun c => c != x) l) =
      List.takeWhile (fun c => c != x && c != y) l := by
  induction l with
  | nil => rfl
  | cons c cs ih =>
    by_cases hx : c = x
    · subst hx; simp [List.takeWhile]
    · rw [takeWhile_ne_cons x c cs hx]
      by_cases hy : c = y
      · subst hy
        rw [List.takeWhile_cons_of_neg (by simp), List.takeWhile_cons_of_neg (by simp)]
      · rw [takeWhile_ne_cons y c _ hy, ih,
          List.takeWhile_cons_of_pos (by simp [hx, hy])]

end strings

/-- A cut of a text whose first character is not `x` stops at the first `x`. -/
theorem sql.cutBefore_cons_ne (x c : Char) (cs : List Char) (h : c ≠ x) :
    sql.cutBefore x (c :: cs) = c :: List.takeWhile (fun d => d != x) cs := by
  simp [sql.cutBefore, h, strings.takeWhile_ne_cons x c cs h]

/-- A text that starts with `x` is not cut at `x`. -/
theorem sql.cutBefore_cons_self (x : Char) (cs : List Char) : sql.cutBefore x (x :: cs) = x :: cs := by
  simp [sql.cutBefore]

namespace sql
open strings

/-- No synonym is empty or starts with `(` or `<`. -/
theorem synonyms_head :
    ∀ x ∈ BigQueryDialect.synonyms,
      x.data ≠ [] ∧ x.data.head? ≠ some '(' ∧ x.data.head? ≠ some '<' := by
  decide

/-- When the operand computed by the code is a synonym, it is the base name in the words of the
specification. -/
theorem switchOperand_eq_baseName (s : String)
    (h : BigQueryDialect.switchOperand (ToLower s) ∈ BigQueryDialect.synonyms) :
    BigQueryDialect.switchOperand (ToLower s) = BigQueryDialect.baseName s := by
  have hs := synonyms_head _ h
  have hl : ToLower s = String.mk (ToLower s).data := rfl
  rw [hl, switchOperand_mk] at hs ⊢
  unfold BigQueryDialect.baseName
  generalize (ToLower s).data = l at hs ⊢
  cases l with
  | nil => rfl
  | cons c cs =>
    by_cases h1 : c = '('
    · subst h1
      exfalso
      rw [sql.cutBefore_cons_self, sql.cutBefore_cons_ne _ _ _ (by decide)] at hs
      rcases TrimSpace_head '(' (List.takeWhile (fun d => d != '<') cs) (by decide) with h0 | h0
      · exact hs.1 h0
      · exact hs.2.1 h0
    · by_cases h2 : c = '<'
      · subst h2
        exfalso
        rw [sql.cutBefore_cons_ne _ _ _ (by decide), sql.cutBefore_cons_self] at hs
        rcases TrimSpace_head '<' (List.takeWhile (fun d => d != '(') cs) (by decide) with h0 | h0
        · exact hs.1 h0
        · exact hs.2.2 h0
      · rw [sql.cutBefore_cons_ne _ _ _ h1, sql.cutBefore_cons_ne _ _ _ h2,
          ← takeWhile_ne_cons _ _ _ h2, ← takeWhile_ne_cons _ _ _ h1,
          takeWhile_takeWhile_bne]

/-- Claim C7: `KindForDataType` never returns an error, and whenever the base name of the type
text (lower-cased, parameter suffix dropped, white space trimmed) is not in the synonym table
the kind is Invalid; the same holds for the operand that the code itself computes. -/
theorem KindForDataType_never_errors (pn : String → String → typing.KindDetails)
    (s extra : String) :
    (BigQueryDialect.KindForDataType pn s extra).2 = none ∧
    (BigQueryDialect.baseName s ∉ BigQueryDialect.synonyms →
      (BigQueryDialect.KindForDataType pn s extra).1 = typing.Invalid) ∧
    (BigQueryDialect.switchOperand (ToLower s) ∉ BigQueryDialect.synonyms →
      (BigQueryDialect.KindForDataType pn s extra).1 = typing.Invalid) := by
  refine ⟨KindForDataType_error pn s extra, ?_, ?_⟩
  · intro hb
    have hop : BigQueryDialect.switchOperand (ToLower s) ∉ BigQueryDialect.synonyms := by
      intro hmem
      exact hb (switchOperand_eq_baseName s hmem ▸ hmem)
    rw [KindForDataType_default pn s extra hop]
  · intro hop
    rw [KindForDataType_default pn s extra hop]

/-- Claim C7 at an unknown type name and at the empty text. -/
theorem KindForDataType_never_errors_witness :
    (BigQueryDialect.KindForDataType typing.ParseNumeric "GEOGRAPHY" "").2 = none ∧
    (BigQueryDialect.KindForDataType typing.ParseNumeric "GEOGRAPHY" "").1 = typing.Invalid ∧
    (BigQueryDialect.KindForDataType typing.ParseNumeric "" "").1 = typing.Invalid :=
  ⟨(KindForDataType_never_errors typing.ParseNumeric "GEOGRAPHY" "").1,
   (KindForDataType_never_errors typing.ParseNumeric "GEOGRAPHY" "").2.1 (by decide),
   (KindForDataType_never_errors typing.ParseNumeric "" "").2.1 (by decide)⟩

end sql

namespace unicode

/-- White space is unchanged by lower-casing. -/
theorem ToLower_of_IsSpace (c : Char) (h : IsSpace c = true) : ToLower c = c := by
  simp only [IsSpace, decide_eq_true_eq] at h
  unfold ToLower Char.toLower
  rw [if_neg (by omega), if_neg (by omega)]
  simp only
  rw [if_neg (by omega)]

end unicode

namespace sql
open strings

/-- The plain synonyms are lower-case texts without brackets or white space that the cuts of
`KindForDataType` leave unchanged. -/
theorem plainSynonyms_facts :
    ∀ b ∈ BigQueryDialect.plainSynonyms,
      (∀ d ∈ b.data, unicode.ToLower d = d ∧ unicode.ToLower d.toUpper = d ∧
        d ≠ '(' ∧ d ≠ '<' ∧ unicode.IsSpace d = false) ∧
      b.data ≠ [] ∧
      ToLower b = b ∧ BigQueryDialect.switchOperand b = b ∧ len b ≠ 0 ∧
      b ≠ "numeric" ∧ b ≠ "bignumeric" ∧
      List.rdropWhile unicode.IsSpace b.data = b.data := by
  decide

/-- Lower-casing an upper/lower-casing of a lower-case text gives that text. -/
theorem map_ToLower_of_isCasingOf (u b : List Char)
    (hb : ∀ d ∈ b, unicode.ToLower d = d ∧ unicode.ToLower d.toUpper = d)
    (hu : isCasingOf u b = true) : u.map unicode.ToLower = b := by
  induction u generalizing b with
  | nil =>
    cases b with
    | nil => rfl
    | cons d ds => simp [isCasingOf] at hu
  | cons c cs ih =>
    cases b with
    | nil => simp [isCasingOf] at hu
    | cons d ds =>
      simp only [isCasingOf, Bool.and_eq_true, Bool.or_eq_true, beq_iff_eq] at hu
      have hd := hb d (List.mem_cons_self d ds)
      have htail := ih ds (fun e he => hb e (List.mem_cons_of_mem d he)) hu.2
      rw [List.map_cons, htail]
      rcases hu.1 with h | h <;> rw [h]
      · rw [hd.1]
      · rw [hd.2]

/-- On a text that starts with neither bracket the two cuts stop at the first bracket. -/
theorem cutBefore_cutBefore (l : List Char) (h1 : l.head? ≠ some '(') (h2 : l.head? ≠ some '<') :
    cutBefore '<' (cutBefore '(' l) = l.takeWhile (fun c => c != '(' && c != '<') := by
  cases l with
  | nil => rfl
  | cons c cs =>
    have h1' : c ≠ '(' := fun e => h1 (by rw [e]; rfl)
    have h2' : c ≠ '<' := fun e => h2 (by rw [e]; rfl)
    rw [cutBefore_cons_ne _ _ _ h1', cutBefore_cons_ne _ _ _ h2',
      ← takeWhile_ne_cons _ _ _ h2', ← takeWhile_ne_cons _ _ _ h1', takeWhile_takeWhile_bne]

/-- A search stops at the first character that fails the test. -/
theorem takeWhile_until (q : Char → Bool) (a r : List Char) (p : Char)
    (ha : ∀ c ∈ a, q c = true) (hp : q p = false) :
    List.takeWhile q (a ++ p :: r) = a := by
  rw [List.takeWhile_append_of_pos ha, List.takeWhile_cons_of_neg (by simp [hp])]
  simp

/-- Trailing white space after a trimmed text is dropped by `TrimSpace`. -/
theorem TrimSpace_append_spaces (b ws : List Char) (hb : ∀ d ∈ b, unicode.IsSpace d = false)
    (hne : b ≠ []) (hr : List.rdropWhile unicode.IsSpace b = b)
    (hws : ∀ c ∈ ws, unicode.IsSpace c = true) :
    TrimSpace (String.mk (b ++ ws)) = String.mk b := by
  apply String.ext
  rw [TrimSpace_data]
  cases b with
  | nil => exact absurd rfl hne
  | cons d ds =>
    have hd := hb d (List.mem_cons_self d ds)
    rw [List.cons_append, List.dropWhile_cons_of_neg (by simp [hd]), ← List.cons_append]
    unfold List.rdropWhile at hr ⊢
    rw [List.reverse_append,
      List.dropWhile_append_of_pos (fun c hc => hws c (List.mem_reverse.mp hc)), hr]

/-- Two type texts with the same operand, other than numeric and bignumeric, have the same
result. -/
theorem KindForDataType_congr (pn : String → String → typing.KindDetails) (s t x y : String)
    (hs : len (ToLower s) ≠ 0) (ht : len (ToLower t) ≠ 0)
    (hop : BigQueryDialect.switchOperand (ToLower s) = BigQueryDialect.switchOperand (ToLower t))
    (hn : BigQueryDialect.switchOperand (ToLower t) ≠ "numeric")
    (hbn : BigQueryDialect.switchOperand (ToLower t) ≠ "bignumeric") :
    BigQueryDialect.KindForDataType pn s x = BigQueryDialect.KindForDataType pn t y := by
  unfold BigQueryDialect.KindForDataType
  simp only
  rw [if_neg hs, if_neg ht, hop]
  generalize BigQueryDialect.switchOperand (ToLower t) = o at hn hbn
  split <;> first | exact absurd rfl hn | exact absurd rfl hbn | rfl

/-- The lower-cased text of a cased base name followed by a parameter suffix. -/
theorem ToLower_casing_with_suffix (b u ws rest : String) (p : Char)
    (hb : ∀ d ∈ b.data, unicode.ToLower d = d ∧ unicode.ToLower d.toUpper = d)
    (hu : isCasingOf u.data b.data = true)
    (hws : ∀ c ∈ ws.data, unicode.IsSpace c = true) (hp : p = '(' ∨ p = '<') :
    ToLower (u ++ ws ++ String.singleton p ++ rest) =
      String.mk (b.data ++ ws.data ++ p :: rest.data.map unicode.ToLower) := by
  have hlow := map_ToLower_of_isCasingOf u.data b.data hb hu
  have hwsl : ws.data.map unicode.ToLower = ws.data := by
    conv_rhs => rw [← List.map_id ws.data]
    exact List.map_congr_left (fun c hc => unicode.ToLower_of_IsSpace c (hws c hc))
  have hpl : unicode.ToLower p = p := by
    rcases hp with rfl | rfl <;> decide
  have hsing : (String.singleton p).data = [p] := rfl
  simp only [ToLower, String.data_append, List.map_append, hlow, hwsl, hsing,
    List.map_cons, List.map_nil, hpl, List.append_assoc, List.singleton_append]

/-- Claim C8: for a base name `b` of the synonym table other than numeric and bignumeric, every
upper/lower-casing `u` of `b`, and every suffix made of white space `ws`, then `(` or `<`, then
any text, the result for `u` followed by the suffix is the result for `b` alone, and so is the
result for `u` alone. -/
theorem KindForDataType_parses_base_name (pn : String → String → typing.KindDetails)
    (b u ws rest : String) (p : Char) (x y : String)
    (hb : b ∈ BigQueryDialect.plainSynonyms)
    (hu : isCasingOf u.data b.data = true)
    (hws : ∀ c ∈ ws.data, unicode.IsSpace c = true)
    (hp : p = '(' ∨ p = '<') :
    BigQueryDialect.KindForDataType pn (u ++ ws ++ String.singleton p ++ rest) x =
        BigQueryDialect.KindForDataType pn b y ∧
    BigQueryDialect.KindForDataType pn u x = BigQueryDialect.KindForDataType pn b y := by
  obtain ⟨hchars, hne, hbl, hbop, hblen, hn, hbn, hr⟩ := plainSynonyms_facts b hb
  have hmk : String.mk b.data = b := rfl
  have hL := ToLower_casing_with_suffix b u ws rest p
    (fun d hd => ⟨(hchars d hd).1, (hchars d hd).2.1⟩) hu hws hp
  have hU : ToLower u = b := by
    have := map_ToLower_of_isCasingOf u.data b.data
      (fun d hd => ⟨(hchars d hd).1, (hchars d hd).2.1⟩) hu
    simp only [ToLower, this]
  have hb0 : len (ToLower b) ≠ 0 := by rw [hbl]; exact hblen
  have hopb : BigQueryDialect.switchOperand (ToLower b) = b := by rw [hbl]; exact hbop
  constructor
  · apply KindForDataType_congr pn _ b x y
    · rw [hL]
      simp only [len, String.utf8ByteSize_mk, ne_eq, String.utf8Len_eq_zero]
      intro h
      simp at h
    · exact hb0
    · rw [hopb, hL, switchOperand_mk]
      have hhead1 : (b.data ++ ws.data ++ p :: rest.data.map unicode.ToLower).head? ≠ some '(' := by
        cases hbd : b.data with
        | nil => exact absurd hbd hne
        | cons d ds =>
          have := (hchars d (by rw [hbd]; exact List.mem_cons_self d ds)).2.2.1
          simpa using this
      have hhead2 : (b.data ++ ws.data ++ p :: rest.data.map unicode.ToLower).head? ≠ some '<' := by
        cases hbd : b.data with
        | nil => exact absurd hbd hne
        | cons d ds =>
          have := (hchars d (by rw [hbd]; exact List.mem_cons_self d ds)).2.2.2.1
          simpa using this
      rw [cutBefore_cutBefore _ hhead1 hhead2, takeWhile_until]
      · rw [TrimSpace_append_spaces b.data ws.data (fun d hd => (hchars d hd).2.2.2.2) hne hr hws]
      · intro c hc
        rcases List.mem_append.mp hc with hc | hc
        · have := hchars c hc
          simp [this.2.2.1, this.2.2.2.1]
        · have hsp := hws c hc
          have h1 : c ≠ '(' := by
            intro e; rw [e] at hsp; exact absurd hsp (by decide)
          have h2 : c ≠ '<' := by
            intro e; rw [e] at hsp; exact absurd hsp (by decide)
          simp [h1, h2]
      · rcases hp with rfl | rfl <;> decide
    · rw [hopb]; exact hn
    · rw [hopb]; exact hbn
  · apply KindForDataType_congr pn u b x y
    · rw [hU]; exact hblen
    · exact hb0
    · rw [hU, hbl]
    · rw [hopb]; exact hn
    · rw [hopb]; exact hbn

/-- Claim C8 at `STRING (10)`, which gives String, and at `Struct<k type>`, which gives
Struct. -/
theorem KindForDataType_parses_base_name_witness :
    BigQueryDialect.KindForDataType typing.ParseNumeric "STRING (10)" "" = (typing.String, none) ∧
    BigQueryDialect.KindForDataType typing.ParseNumeric "Struct<k type>" ""
      = (typing.Struct, none) :=
  ⟨((KindForDataType_parses_base_name typing.ParseNumeric "string" "STRING" " " "10)" '(' "" ""
      (by decide) (by decide) (by decide) (by decide)).1).trans (by decide),
   ((KindForDataType_parses_base_name typing.ParseNumeric "struct" "Struct" "" "k type>" '<' "" ""
      (by decide) (by decide) (by decide) (by decide)).1).trans (by decide)⟩

/-- The second argument of `KindForDataType` is not read. -/
theorem KindForDataType_extra (pn : String → String → typing.KindDetails) (s x y : String) :
    BigQueryDialect.KindForDataType pn s x = BigQueryDialect.KindForDataType pn s y := rfl

/-- Each plain kind is rendered to a native type text that is parsed back to it. -/
theorem roundtrip_plainKinds (bq : decimal.DecimalDetails → String) (flag : Bool) (y : String) :
    ∀ kd ∈ BigQueryDialect.plainKinds,
      ∃ t, BigQueryDialect.DataTypeForKind bq kd flag = some t ∧
        BigQueryDialect.KindForDataType typing.ParseNumeric t y = (kd, none) := by
  intro kd hkd
  simp only [BigQueryDialect.plainKinds, List.mem_cons, List.mem_singleton, List.not_mem_nil,
    or_false] at hkd
  rcases hkd with rfl | rfl | rfl | rfl | rfl | rfl | rfl | rfl | rfl
  · exact ⟨"float64", rfl, (KindForDataType_extra _ _ y "").trans (by decide)⟩
  · exact ⟨"int", rfl, (KindForDataType_extra _ _ y "").trans (by decide)⟩
  · exact ⟨"string", rfl, (KindForDataType_extra _ _ y "").trans (by decide)⟩
  · exact ⟨"bool", rfl, (KindForDataType_extra _ _ y "").trans (by decide)⟩
  · exact ⟨"json", rfl, (KindForDataType_extra _ _ y "").trans (by decide)⟩
  · exact ⟨"array<string>", rfl, (KindForDataType_extra _ _ y "").trans (by decide)⟩
  · exact ⟨"timestamp", rfl, (KindForDataType_extra _ _ y "").trans (by decide)⟩
  · exact ⟨"time", rfl, (KindForDataType_extra _ _ y "").trans (by decide)⟩
  · exact ⟨"date", rfl, (KindForDataType_extra _ _ y "").trans (by decide)⟩

/-- A decimal digit is unchanged by lower-casing and is none of the separators. -/
theorem isDigit_facts (c : Char) (h : strconv.isDigit c = true) :
    unicode.ToLower c = c ∧ c ≠ '(' ∧ c ≠ '<' ∧ c ≠ ',' ∧ c ≠ ')' ∧ c ≠ ' ' := by
  simp only [strconv.isDigit, decide_eq_true_eq] at h
  refine ⟨?_, ?_, ?_, ?_, ?_, ?_⟩
  · unfold unicode.ToLower Char.toLower
    rw [if_neg (by omega), if_neg (by omega)]
    simp only
    rw [if_neg (by omega)]
  all_goals (intro e; rw [e] at h; revert h; decide)

set_option maxRecDepth 100000 in
/-- The numbers 1 to 76 are printed as decimal digits and read back, also after a blank. -/
theorem numeral_facts :
    ∀ k ∈ List.range 77, k ≠ 0 →
      (∀ c ∈ (decimal.formatInt (k : Int)).data, strconv.isDigit c = true) ∧
      strconv.ParseInt32 (TrimSpace (decimal.formatInt (k : Int))) = some (k : Int) ∧
      strconv.ParseInt32 (TrimSpace (String.mk (' ' :: (decimal.formatInt (k : Int)).data)))
        = some (k : Int) := by
  decide

/-- A text without the separator is a single piece. -/
theorem splitChars_no_sep (sep : Char) (a : List Char) (h : sep ∉ a) :
    splitChars sep a = [a] := by
  induction a with
  | nil => rfl
  | cons c cs ih =>
    have hc : c ≠ sep := fun e => h (e ▸ List.mem_cons_self c cs)
    have hcs : sep ∉ cs := fun hm => h (List.mem_cons_of_mem c hm)
    simp [splitChars, hc, ih hcs]

/-- The first piece ends at the first separator. -/
theorem splitChars_append_sep (sep : Char) (a r : List Char) (h : sep ∉ a) :
    splitChars sep (a ++ sep :: r) = a :: splitChars sep r := by
  induction a with
  | nil => simp [splitChars]
  | cons c cs ih =>
    have hc : c ≠ sep := fun e => h (e ▸ List.mem_cons_self c cs)
    have hcs : sep ∉ cs := fun hm => h (List.mem_cons_of_mem c hm)
    simp [splitChars, hc, ih hcs]

/-- `ParseNumeric` reads `name(P, S)` back as an ExtendedDecimal with the precision of `P` and
the scale of `S`, when the scale is not zero. -/
theorem ParseNumeric_formatted (name : String) (P S : List Char) (p s : Int)
    (hP : ∀ c ∈ P, strconv.isDigit c = true) (hS : ∀ c ∈ S, strconv.isDigit c = true)
    (hp : strconv.ParseInt32 (TrimSpace (String.mk P)) = some p)
    (hs : strconv.ParseInt32 (TrimSpace (String.mk (' ' :: S))) = some s)
    (hs0 : s ≠ 0) :
    typing.ParseNumeric name (String.mk (name.data ++ '(' :: (P ++ ',' :: ' ' :: (S ++ [')']))))
      = { typing.EDecimal with
          ExtendedDecimalDetails := some { scale := s, precision := p } } := by
  have hcoP : ',' ∉ P := fun hm => (isDigit_facts _ (hP _ hm)).2.2.2.1 rfl
  have hcoS : ',' ∉ S := fun hm => (isDigit_facts _ (hS _ hm)).2.2.2.1 rfl
  have h1 : HasPrefix (String.mk (name.data ++ '(' :: (P ++ ',' :: ' ' :: (S ++ [')'])))) name
      = true := by
    simp [HasPrefix]
  have h2 : TrimPrefix (String.mk (name.data ++ '(' :: (P ++ ',' :: ' ' :: (S ++ [')']))))
      (name ++ "(") = String.mk (P ++ ',' :: ' ' :: (S ++ [')'])) := by
    have hd : (name ++ "(").data = name.data ++ ['('] := rfl
    have hl : name.data ++ '(' :: (P ++ ',' :: ' ' :: (S ++ [')']))
        = (name.data ++ ['(']) ++ (P ++ ',' :: ' ' :: (S ++ [')'])) := by simp
    simp only [TrimPrefix, hd]
    rw [hl, if_pos (by simp), List.drop_left]
  have h3 : TrimSuffix (String.mk (P ++ ',' :: ' ' :: (S ++ [')']))) ")"
      = String.mk (P ++ ',' :: ' ' :: S) := by
    have hd : (")" : String).data = [')'] := rfl
    have hl : (P ++ ',' :: ' ' :: (S ++ [')'])).reverse = ')' :: (P ++ ',' :: ' ' :: S).reverse := by
      simp
    simp only [TrimSuffix, hd, hl]
    simp
  have h4 : Split (String.mk (P ++ ',' :: ' ' :: S)) ',' = [String.mk P, String.mk (' ' :: S)] := by
    have hS' : ',' ∉ ' ' :: S := by
      intro hm
      rcases List.mem_cons.mp hm with h | h
      · exact absurd h (by decide)
      · exact hcoS h
    simp only [Split, splitChars_append_sep ',' P _ hcoP, splitChars_no_sep ',' _ hS',
      List.map_cons, List.map_nil]
  unfold typing.ParseNumeric
  simp only [h1, h2, h3, h4, not_true_eq_false, if_false, List.length_cons, List.length_nil]
  simp [List.mapM.loop, hp, hs, hs0]

/-- Decimal digits are unchanged by lower-casing. -/
theorem map_ToLower_digits (P : List Char) (hP : ∀ c ∈ P, strconv.isDigit c = true) :
    P.map unicode.ToLower = P := by
  conv_rhs => rw [← List.map_id P]
  exact List.map_congr_left (fun c hc => (isDigit_facts c (hP c hc)).1)

/-- The lower-cased text of a rendered decimal type name. -/
theorem ToLower_formatted (U low P S : List Char) (hU : U.map unicode.ToLower = low)
    (hP : ∀ c ∈ P, strconv.isDigit c = true) (hS : ∀ c ∈ S, strconv.isDigit c = true) :
    ToLower (String.mk (U ++ '(' :: (P ++ ',' :: ' ' :: (S ++ [')'])))) =
      String.mk (low ++ '(' :: (P ++ ',' :: ' ' :: (S ++ [')']))) := by
  have h1 : unicode.ToLower '(' = '(' := by decide
  have h2 : unicode.ToLower ',' = ',' := by decide
  have h3 : unicode.ToLower ' ' = ' ' := by decide
  have h4 : unicode.ToLower ')' = ')' := by decide
  simp only [ToLower, List.map_append, List.map_cons, List.map_nil, hU, h1, h2, h3, h4,
    map_ToLower_digits P hP, map_ToLower_digits S hS]

/-- The switch operand of a lower-case name followed by `(` is that name. -/
theorem switchOperand_formatted (low rest : List Char)
    (hne : low ≠ [])
    (hlow : ∀ c ∈ low, (c != '(' && c != '<') = true)
    (htrim : TrimSpace (String.mk low) = String.mk low) :
    BigQueryDialect.switchOperand (String.mk (low ++ '(' :: rest)) = String.mk low := by
  rw [switchOperand_mk]
  have hhead1 : (low ++ '(' :: rest).head? ≠ some '(' := by
    cases low with
    | nil => exact absurd rfl hne
    | cons d ds =>
      have := hlow d (List.mem_cons_self d ds)
      simp only [Bool.and_eq_true, bne_iff_ne, ne_eq] at this
      simpa using this.1
  have hhead2 : (low ++ '(' :: rest).head? ≠ some '<' := by
    cases low with
    | nil => exact absurd rfl hne
    | cons d ds =>
      have := hlow d (List.mem_cons_self d ds)
      simp only [Bool.and_eq_true, bne_iff_ne, ne_eq] at this
      simpa using this.2
  rw [cutBefore_cutBefore _ hhead1 hhead2, takeWhile_until _ low rest '(' hlow (by decide), htrim]

/-- The branch of the operand `numeric`. -/
theorem KindForDataType_of_numeric (pn : String → String → typing.KindDetails) (s x : String)
    (hlen : len (ToLower s) ≠ 0)
    (hop : BigQueryDialect.switchOperand (ToLower s) = "numeric") :
    BigQueryDialect.KindForDataType pn s x =
      if ToLower s = "numeric" ∨ ToLower s = "bignumeric" then (typing.EDecimal, none)
      else (pn typing.DefaultPrefix (ToLower s), none) := by
  unfold BigQueryDialect.KindForDataType
  simp only
  rw [if_neg hlen]
  split
  · rfl
  all_goals
    first
    | (rename_i heq; rw [hop] at heq; exact absurd heq (by decide))
    | (rename_i hno _ _ _ _ _ _ _ _ _ _ _ _ _ _ _ _ _ _ _ _; exact absurd hop hno)

/-- The branch of the operand `bignumeric`. -/
theorem KindForDataType_of_bignumeric (pn : String → String → typing.KindDetails) (s x : String)
    (hlen : len (ToLower s) ≠ 0)
    (hop : BigQueryDialect.switchOperand (ToLower s) = "bignumeric") :
    BigQueryDialect.KindForDataType pn s x =
      if ToLower s = "bignumeric" then (typing.EDecimal, none)
      else (pn "bignumeric" (ToLower s), none) := by
  unfold BigQueryDialect.KindForDataType
  simp only
  rw [if_neg hlen]
  split
  · rename_i heq; rw [hop] at heq; exact absurd heq (by decide)
  · rfl
  all_goals
    first
    | (rename_i heq; rw [hop] at heq; exact absurd heq (by decide))
    | (rename_i _ hno _ _ _ _ _ _ _ _ _ _ _ _ _ _ _ _ _ _ _; exact absurd hop hno)

/-- `KindForDataType` reads `NUMERIC(P, S)` back as an ExtendedDecimal. -/
theorem KindForDataType_formatted_numeric (P S : List Char) (p s : Int) (y : String)
    (hP : ∀ c ∈ P, strconv.isDigit c = true) (hS : ∀ c ∈ S, strconv.isDigit c = true)
    (hp : strconv.ParseInt32 (TrimSpace (String.mk P)) = some p)
    (hs : strconv.ParseInt32 (TrimSpace (String.mk (' ' :: S))) = some s)
    (hs0 : s ≠ 0) :
    BigQueryDialect.KindForDataType typing.ParseNumeric
        (String.mk ("NUMERIC".data ++ '(' :: (P ++ ',' :: ' ' :: (S ++ [')'])))) y
      = ({ typing.EDecimal with
          ExtendedDecimalDetails := some { scale := s, precision := p } }, none) := by
  have hL := ToLower_formatted "NUMERIC".data "numeric".data P S (by decide) hP hS
  have hop := switchOperand_formatted "numeric".data (P ++ ',' :: ' ' :: (S ++ [')']))
    (by decide) (by decide) (by decide)
  have hlen : len (String.mk ("numeric".data ++ '(' :: (P ++ ',' :: ' ' :: (S ++ [')'])))) ≠ 0 := by
    simp only [len, String.utf8ByteSize_mk, ne_eq, String.utf8Len_eq_zero]
    intro h
    simp at h
  have hraw1 : String.mk ("numeric".data ++ '(' :: (P ++ ',' :: ' ' :: (S ++ [')']))) ≠ "numeric" := by
    intro h
    have := congrArg String.data h
    simp at this
  have hraw2 : String.mk ("numeric".data ++ '(' :: (P ++ ',' :: ' ' :: (S ++ [')'])))
      ≠ "bignumeric" := by
    intro h
    have := congrArg String.length h
    have h' := congrArg String.data h
    revert h'
    show ('n' :: _ : List Char) = 'b' :: _ → False
    intro h'
    exact absurd (List.cons.inj h').1 (by decide)
  have hpn := ParseNumeric_formatted "numeric" P S p s hP hS hp hs hs0
  have hlen' : len (ToLower (String.mk
      ("NUMERIC".data ++ '(' :: (P ++ ',' :: ' ' :: (S ++ [')']))))) ≠ 0 := by rw [hL]; exact hlen
  have hop' : BigQueryDialect.switchOperand (ToLower (String.mk
      ("NUMERIC".data ++ '(' :: (P ++ ',' :: ' ' :: (S ++ [')']))))) = "numeric" := by
    rw [hL]; exact hop
  have hdp : typing.DefaultPrefix = "numeric" := rfl
  rw [KindForDataType_of_numeric _ _ _ hlen' hop', hL,
    if_neg (by simp only [not_or]; exact ⟨hraw1, hraw2⟩), hdp, hpn]

/-- `KindForDataType` reads `BIGNUMERIC(P, S)` back as an ExtendedDecimal. -/
theorem KindForDataType_formatted_bignumeric (P S : List Char) (p s : Int) (y : String)
    (hP : ∀ c ∈ P, strconv.isDigit c = true) (hS : ∀ c ∈ S, strconv.isDigit c = true)
    (hp : strconv.ParseInt32 (TrimSpace (String.mk P)) = some p)
    (hs : strconv.ParseInt32 (TrimSpace (String.mk (' ' :: S))) = some s)
    (hs0 : s ≠ 0) :
    BigQueryDialect.KindForDataType typing.ParseNumeric
        (String.mk ("BIGNUMERIC".data ++ '(' :: (P ++ ',' :: ' ' :: (S ++ [')'])))) y
      = ({ typing.EDecimal with
          ExtendedDecimalDetails := some { scale := s, precision := p } }, none) := by
  have hL := ToLower_formatted "BIGNUMERIC".data "bignumeric".data P S (by decide) hP hS
  have hop := switchOperand_formatted "bignumeric".data (P ++ ',' :: ' ' :: (S ++ [')']))
    (by decide) (by decide) (by decide)
  have hlen : len (String.mk ("bignumeric".data ++ '(' :: (P ++ ',' :: ' ' :: (S ++ [')'])))) ≠ 0 := by
    simp only [len, String.utf8ByteSize_mk, ne_eq, String.utf8Len_eq_zero]
    intro h
    simp at h
  have hraw : String.mk ("bignumeric".data ++ '(' :: (P ++ ',' :: ' ' :: (S ++ [')'])))
      ≠ "bignumeric" := by
    intro h
    have := congrArg String.data h
    simp at this
  have hpn := ParseNumeric_formatted "bignumeric" P S p s hP hS hp hs hs0
  have hlen' : len (ToLower (String.mk
      ("BIGNUMERIC".data ++ '(' :: (P ++ ',' :: ' ' :: (S ++ [')']))))) ≠ 0 := by rw [hL]; exact hlen
  have hop' : BigQueryDialect.switchOperand (ToLower (String.mk
      ("BIGNUMERIC".data ++ '(' :: (P ++ ',' :: ' ' :: (S ++ [')']))))) = "bignumeric" := by
    rw [hL]; exact hop
  rw [KindForDataType_of_bignumeric _ _ _ hlen' hop', hL, if_neg hraw, hpn]

/-- The results of `ParseNumeric`: Invalid, Integer, or ExtendedDecimal with a scale other than
zero. -/
theorem ParseNumeric_shape (pre valString : String) :
    typing.ParseNumeric pre valString = typing.Invalid ∨
    typing.ParseNumeric pre valString = typing.Integer ∨
    ∃ d : decimal.DecimalDetails, d.scale ≠ 0 ∧
      typing.ParseNumeric pre valString = { typing.EDecimal with ExtendedDecimalDetails := some d } := by
  unfold typing.ParseNumeric
  simp only
  by_cases hpre : ¬ HasPrefix valString pre = true
  · rw [if_pos hpre]; exact Or.inl rfl
  · rw [if_neg hpre]
    split_ifs
    · exact Or.inl rfl
    · split
      · exact Or.inl rfl
      · exact Or.inl rfl
      · exact Or.inr (Or.inl rfl)
      · rename_i precision scale _ _
        by_cases hs : scale = 0
        · rw [if_pos hs]; exact Or.inr (Or.inl rfl)
        · rw [if_neg hs]
          exact Or.inr (Or.inr ⟨{ scale := scale, precision := precision }, hs, rfl⟩)

/-- The results of `KindForDataType`: Invalid, the ExtendedDecimal template, an ExtendedDecimal
with details, or a plain kind. -/
theorem KindForDataType_shape (n x : String) :
    (BigQueryDialect.KindForDataType typing.ParseNumeric n x).1 = typing.Invalid ∨
    (BigQueryDialect.KindForDataType typing.ParseNumeric n x).1 = typing.EDecimal ∨
    (∃ d : decimal.DecimalDetails, d.scale ≠ 0 ∧
      (BigQueryDialect.KindForDataType typing.ParseNumeric n x).1 =
        { typing.EDecimal with ExtendedDecimalDetails := some d }) ∨
    (BigQueryDialect.KindForDataType typing.ParseNumeric n x).1 ∈ BigQueryDialect.plainKinds := by
  unfold BigQueryDialect.KindForDataType
  simp only
  by_cases hlen : len (ToLower n) = 0
  · rw [if_pos hlen]; exact Or.inl rfl
  · rw [if_neg hlen]
    split
    · split_ifs
      · exact Or.inr (Or.inl rfl)
      · rcases ParseNumeric_shape typing.DefaultPrefix (ToLower n) with h | h | h
        · exact Or.inl h
        · right; right; right; simp only [h]; decide
        · exact Or.inr (Or.inr (Or.inl h))
    · split_ifs
      · exact Or.inr (Or.inl rfl)
      · rcases ParseNumeric_shape "bignumeric" (ToLower n) with h | h | h
        · exact Or.inl h
        · right; right; right; simp only [h]; decide
        · exact Or.inr (Or.inr (Or.inl h))
    all_goals first | exact Or.inl rfl | (right; right; right; decide)

/-- Details that fit NUMERIC or BIGNUMERIC with a scale other than zero have a scale from 1 to 38
and a precision from 1 to 76. -/
theorem fits_bounds (d : decimal.DecimalDetails) (hs : d.scale ≠ 0)
    (hfit : d.isNumeric = true ∨ d.isBigNumeric = true) :
    1 ≤ d.scale ∧ d.scale ≤ 38 ∧ 1 ≤ d.precision ∧ d.precision ≤ 76 := by
  rcases hfit with h | h
  · simp only [decimal.DecimalDetails.isNumeric, decimal.PrecisionNotSpecified] at h
    split_ifs at h with h1 h2
    simp only [decide_eq_true_eq] at h
    omega
  · simp only [decimal.DecimalDetails.isBigNumeric, decimal.PrecisionNotSpecified] at h
    split_ifs at h with h1 h2
    simp only [decide_eq_true_eq] at h
    omega

/-- A number from 1 to 76 is printed as decimal digits and read back. -/
theorem numeral_of_bounds (v : Int) (h1 : 1 ≤ v) (h2 : v ≤ 76) :
    (∀ c ∈ (decimal.formatInt v).data, strconv.isDigit c = true) ∧
    strconv.ParseInt32 (TrimSpace (String.mk (decimal.formatInt v).data)) = some v ∧
    strconv.ParseInt32 (TrimSpace (String.mk (' ' :: (decimal.formatInt v).data))) = some v := by
  have hv : v = ((v.toNat : Nat) : Int) := by omega
  have hk := numeral_facts v.toNat (List.mem_range.mpr (by omega)) (by omega)
  rw [← hv] at hk
  exact hk

/-- The characters of a rendered NUMERIC type name. -/
theorem numeric_text (a b : String) :
    "NUMERIC(" ++ a ++ ", " ++ b ++ ")" =
      String.mk ("NUMERIC".data ++ '(' :: (a.data ++ ',' :: ' ' :: (b.data ++ [')']))) := by
  have e1 : "NUMERIC(".data = "NUMERIC".data ++ ['('] := by decide
  have e2 : ", ".data = [',', ' '] := rfl
  have e3 : ")".data = [')'] := rfl
  apply String.ext
  simp only [String.data_append, e1, e2, e3]
  simp only [List.append_assoc, List.cons_append, List.nil_append]

/-- The characters of a rendered BIGNUMERIC type name. -/
theorem bignumeric_text (a b : String) :
    "BIGNUMERIC(" ++ a ++ ", " ++ b ++ ")" =
      String.mk ("BIGNUMERIC".data ++ '(' :: (a.data ++ ',' :: ' ' :: (b.data ++ [')']))) := by
  have e1 : "BIGNUMERIC(".data = "BIGNUMERIC".data ++ ['('] := by decide
  have e2 : ", ".data = [',', ' '] := rfl
  have e3 : ")".data = [')'] := rfl
  apply String.ext
  simp only [String.data_append, e1, e2, e3]
  simp only [List.append_assoc, List.cons_append, List.nil_append]

/-- An ExtendedDecimal whose details fit NUMERIC or BIGNUMERIC is rendered to a native type text
that is parsed back to it. -/
theorem roundtrip_decimal (generic y : String) (flag : Bool) (d : decimal.DecimalDetails)
    (hs : d.scale ≠ 0) (hfit : d.isNumeric = true ∨ d.isBigNumeric = true) :
    ∃ t, BigQueryDialect.DataTypeForKind (decimal.DecimalDetails.BigQueryKind generic)
          { typing.EDecimal with ExtendedDecimalDetails := some d } flag = some t ∧
      BigQueryDialect.KindForDataType typing.ParseNumeric t y =
        ({ typing.EDecimal with ExtendedDecimalDetails := some d }, none) := by
  obtain ⟨hs1, hs2, hp1, hp2⟩ := fits_bounds d hs hfit
  obtain ⟨hP, hp, _⟩ := numeral_of_bounds d.precision hp1 hp2
  obtain ⟨hS, _, hsp⟩ := numeral_of_bounds d.scale hs1 (by omega)
  refine ⟨decimal.DecimalDetails.BigQueryKind generic d, rfl, ?_⟩
  unfold decimal.DecimalDetails.BigQueryKind
  by_cases hn : d.isNumeric = true
  · rw [if_pos hn, numeric_text]
    exact KindForDataType_formatted_numeric _ _ d.precision d.scale y hP hS hp hsp hs
  · rw [if_neg hn]
    have hb : d.isBigNumeric = true := by
      rcases hfit with h | h
      · exact absurd h hn
      · exact h
    rw [if_pos hb, bignumeric_text]
    exact KindForDataType_formatted_bignumeric _ _ d.precision d.scale y hP hS hp hsp hs

/-- Claim C9, amended: for every native type text whose kind is not Invalid, and whose decimal
details, when the kind is ExtendedDecimal, are present and fit NUMERIC or BIGNUMERIC,
`DataTypeForKind` returns a native type text that `KindForDataType` maps back to the same kind
details: the same kind, the same Date/Time/DateTime sub-kind, the same precision and scale. -/
theorem roundtrip_within_limits (generic n x y : String) (flag : Bool)
    (hvalid : (BigQueryDialect.KindForDataType typing.ParseNumeric n x).1 ≠ typing.Invalid)
    (hfit : (BigQueryDialect.KindForDataType typing.ParseNumeric n x).1.Kind
        = typing.EDecimal.Kind →
      ∃ d, (BigQueryDialect.KindForDataType typing.ParseNumeric n x).1.ExtendedDecimalDetails
          = some d ∧ (d.isNumeric = true ∨ d.isBigNumeric = true)) :
    ∃ t, BigQueryDialect.DataTypeForKind (decimal.DecimalDetails.BigQueryKind generic)
          (BigQueryDialect.KindForDataType typing.ParseNumeric n x).1 flag = some t ∧
      BigQueryDialect.KindForDataType typing.ParseNumeric t y =
        BigQueryDialect.KindForDataType typing.ParseNumeric n x := by
  have herr := KindForDataType_error typing.ParseNumeric n x
  rcases KindForDataType_shape n x with h | h | ⟨d, hd0, h⟩ | h
  · exact absurd h hvalid
  · obtain ⟨d, hd, _⟩ := hfit (by rw [h])
    rw [h] at hd
    exact absurd hd (by simp [typing.EDecimal, typing.template])
  · obtain ⟨d', hd', hfit'⟩ := hfit (by rw [h])
    rw [h] at hd'
    have hdd : d = d' := Option.some.inj hd'
    subst hdd
    obtain ⟨t, ht, hback⟩ := roundtrip_decimal generic y flag d hd0 hfit'
    refine ⟨t, by rw [h]; exact ht, ?_⟩
    rw [hback]
    exact Prod.ext h.symm herr.symm
  · obtain ⟨t, ht, hback⟩ := roundtrip_plainKinds
      (decimal.DecimalDetails.BigQueryKind generic) flag y _ h
    refine ⟨t, ht, ?_⟩
    rw [hback]
    exact Prod.ext rfl herr.symm

/-- Claim C9, amended, at `NUMERIC(38,9)`. -/
theorem roundtrip_within_limits_witness :
    ∃ t, BigQueryDialect.DataTypeForKind (decimal.DecimalDetails.BigQueryKind "STRING")
          (BigQueryDialect.KindForDataType typing.ParseNumeric "NUMERIC(38,9)" "").1 false
          = some t ∧
      BigQueryDialect.KindForDataType typing.ParseNumeric t "" =
        BigQueryDialect.KindForDataType typing.ParseNumeric "NUMERIC(38,9)" "" :=
  roundtrip_within_limits "STRING" "NUMERIC(38,9)" "" "" false (by decide)
    (fun _ => ⟨{ scale := 9, precision := 38 }, by decide, Or.inl (by decide)⟩)

/-- Claim C9 fails at `NUMERIC`: the kind is the ExtendedDecimal template, which is not Invalid
and carries no decimal details, and `DataTypeForKind` fails on it. -/
theorem roundtrip_fails_on_bare_numeric :
    (BigQueryDialect.KindForDataType typing.ParseNumeric "NUMERIC" "").1 ≠ typing.Invalid ∧
    (BigQueryDialect.KindForDataType typing.ParseNumeric "NUMERIC" "").1 = typing.EDecimal ∧
    BigQueryDialect.DataTypeForKind (decimal.DecimalDetails.BigQueryKind "STRING")
      (BigQueryDialect.KindForDataType typing.ParseNumeric "NUMERIC" "").1 false = none := by
  decide

/-- Claim C10: `NUMERIC(38,9)` is parsed to ExtendedDecimal with scale 9 and precision 38;
`DataTypeForKind` renders that kind as `NUMERIC(38, 9)`, which is parsed back to the same
precision and scale. -/
theorem KindForDataType_numeric_38_9 (generic extra extra' : String) (flag : Bool) :
    BigQueryDialect.KindForDataType typing.ParseNumeric "NUMERIC(38,9)" extra =
      ({ typing.EDecimal with
          ExtendedDecimalDetails := some { scale := 9, precision := 38 } }, none) ∧
    BigQueryDialect.DataTypeForKind (decimal.DecimalDetails.BigQueryKind generic)
      (BigQueryDialect.KindForDataType typing.ParseNumeric "NUMERIC(38,9)" extra).1 flag
      = some "NUMERIC(38, 9)" ∧
    BigQueryDialect.KindForDataType typing.ParseNumeric "NUMERIC(38, 9)" extra' =
      BigQueryDialect.KindForDataType typing.ParseNumeric "NUMERIC(38,9)" extra := by
  have h : BigQueryDialect.KindForDataType typing.ParseNumeric "NUMERIC(38,9)" extra =
      ({ typing.EDecimal with
          ExtendedDecimalDetails := some { scale := 9, precision := 38 } }, none) :=
    (KindForDataType_extra _ _ extra "").trans (by decide)
  refine ⟨h, ?_, ?_⟩
  · rw [h]; rfl
  · rw [h]; exact (KindForDataType_extra _ _ extra' "").trans (by decide)

end sql

/-! ## The transport file -/

namespace snowflake

/-- A row without a failing cell is cast to the list of its cast cells, in the order of the
columns. -/
theorem castRow_ok {α : Type} (ToString : α → typing.KindDetails → String × error)
    (value : optimization.Row α) (cols : List columns.Column)
    (h : ∀ col ∈ cols,
      (castColValStaging ToString (value.index col.Name) col.KindDetails).2 = none) :
    castRow ToString value cols = Except.ok (cols.map (fun col =>
      (castColValStaging ToString (value.index col.Name) col.KindDetails).1)) := by
  induction cols with
  | nil => rfl
  | cons col rest ih =>
    have hcol := h col (List.mem_cons_self col rest)
    have hrest := ih (fun c hc => h c (List.mem_cons_of_mem col hc))
    rcases hc : castColValStaging ToString (value.index col.Name) col.KindDetails with ⟨t, e⟩
    rw [hc] at hcol
    simp only at hcol
    subst hcol
    simp only [castRow, hc, hrest, List.map_cons]

/-- A row whose cast fails has a cell that fails with that error. -/
theorem castRow_error {α : Type} (ToString : α → typing.KindDetails → String × error)
    (value : optimization.Row α) (cols : List columns.Column) (err : String)
    (h : castRow ToString value cols = Except.error err) :
    ∃ col ∈ cols,
      (castColValStaging ToString (value.index col.Name) col.KindDetails).2 = some err := by
  induction cols with
  | nil => simp [castRow] at h
  | cons col rest ih =>
    rcases hc : castColValStaging ToString (value.index col.Name) col.KindDetails with ⟨t, _ | e⟩
    · simp only [castRow, hc] at h
      rcases hr : castRow ToString value rest with e' | row
      · rw [hr] at h
        simp only [Except.error.injEq] at h
        subst h
        obtain ⟨c, hc', hce⟩ := ih hr
        exact ⟨c, List.mem_cons_of_mem col hc', hce⟩
      · rw [hr] at h
        simp at h
    · simp only [castRow, hc, Except.error.injEq] at h
      subst h
      exact ⟨col, List.mem_cons_self col rest, by rw [hc]⟩

/-- A batch without a failing cell, written without a write error, gives one record for each
row, in the order of the rows. -/
theorem writeRows_ok {α : Type} (ToString : α → typing.KindDetails → String × error)
    (out : Outcomes) (cols : List columns.Column) (rows : List (optimization.Row α))
    (i : Nat) (written : List (List String))
    (hwrite : ∀ j, out.write j = none)
    (h : ∀ value ∈ rows, ∀ col ∈ cols,
      (castColValStaging ToString (value.index col.Name) col.KindDetails).2 = none) :
    writeRows ToString out cols rows i written =
      Except.ok (written ++ rows.map (fun value => cols.map (fun col =>
        (castColValStaging ToString (value.index col.Name) col.KindDetails).1))) := by
  induction rows generalizing i written with
  | nil => simp [writeRows]
  | cons value rest ih =>
    have hv := castRow_ok ToString value cols (h value (List.mem_cons_self value rest))
    have hrest := ih (i + 1) (written ++ [cols.map (fun col =>
        (castColValStaging ToString (value.index col.Name) col.KindDetails).1)])
      (fun v hv' => h v (List.mem_cons_of_mem value hv'))
    simp only [writeRows, hv, hwrite, hrest, List.map_cons, List.append_assoc,
      List.singleton_append]

/-- Without a write error, the error of the loop is the cast error of a cell of the batch. -/
theorem writeRows_error {α : Type} (ToString : α → typing.KindDetails → String × error)
    (out : Outcomes) (cols : List columns.Column) (rows : List (optimization.Row α))
    (i : Nat) (written : List (List String)) (err : String)
    (hwrite : ∀ j, out.write j = none)
    (h : writeRows ToString out cols rows i written = Except.error err) :
    ∃ value ∈ rows, ∃ col ∈ cols,
      (castColValStaging ToString (value.index col.Name) col.KindDetails).2 = some err := by
  induction rows generalizing i written with
  | nil => simp [writeRows] at h
  | cons value rest ih =>
    rcases hr : castRow ToString value cols with e | row
    · simp only [writeRows, hr, Except.error.injEq] at h
      subst h
      obtain ⟨col, hcol, hce⟩ := castRow_error ToString value cols e hr
      exact ⟨value, List.mem_cons_self value rest, col, hcol, hce⟩
    · simp only [writeRows, hr, hwrite] at h
      obtain ⟨v, hv, col, hcol, hce⟩ := ih (i + 1) (written ++ [row]) h
      exact ⟨v, List.mem_cons_of_mem value hv, col, hcol, hce⟩

/-- A file holds the records flushed to it. -/
theorem contents_flush (fs : os.FileSystem) (path : String) (records : List (List String)) :
    (fs.flush path records).contents path = some records := by
  simp [os.FileSystem.flush, os.FileSystem.contents, List.lookup]

/-- A created file exists. -/
theorem Exists_Create (fs : os.FileSystem) (path : String) :
    (fs.Create path).Exists path = true := by
  simp [os.FileSystem.Create, os.FileSystem.Exists, List.lookup]

/-- No entry of a removed path is left. -/
theorem lookup_filter_ne (fs : os.FileSystem) (path : String) :
    List.lookup path (fs.filter (fun entry => entry.1 != path)) = none := by
  induction fs with
  | nil => rfl
  | cons entry rest ih =>
    by_cases he : entry.1 = path
    · rw [List.filter_cons_of_neg (by simp [he])]
      exact ih
    · rw [List.filter_cons_of_pos (by simp [he])]
      obtain ⟨k, v⟩ := entry
      have hk : (path == k) = false := by
        simp only [beq_eq_false_iff_ne, ne_eq]
        exact fun e => he e.symm
      simp only [List.lookup, hk]
      exact ih

/-- A removed file does not exist. -/
theorem Exists_RemoveAll (fs : os.FileSystem) (path : String) :
    (fs.RemoveAll path).Exists path = false := by
  simp [os.FileSystem.RemoveAll, os.FileSystem.Exists, lookup_filter_ne]

end snowflake

namespace snowflake

/-- A row whose cast ends without error has no failing cell. -/
theorem castRow_cells {α : Type} (ToString : α → typing.KindDetails → String × error)
    (value : optimization.Row α) (cols : List columns.Column) (row : List String)
    (h : castRow ToString value cols = Except.ok row) :
    ∀ col ∈ cols,
      (castColValStaging ToString (value.index col.Name) col.KindDetails).2 = none := by
  induction cols generalizing row with
  | nil => intro col hcol; simp at hcol
  | cons d ds ih =>
    intro col hcol
    rcases hd : castColValStaging ToString (value.index d.Name) d.KindDetails with ⟨t, _ | e⟩
    · simp only [castRow, hd] at h
      rcases hds : castRow ToString value ds with e' | row'
      · rw [hds] at h; simp at h
      · rcases List.mem_cons.mp hcol with hcd | hcds
        · rw [hcd, hd]
        · exact ih row' hds col hcds
    · simp [castRow, hd] at h

/-- A batch whose rows are all written has no failing cell. -/
theorem writeRows_cells {α : Type} (ToString : α → typing.KindDetails → String × error)
    (out : Outcomes) (cols : List columns.Column) (rows : List (optimization.Row α))
    (i : Nat) (written records : List (List String))
    (hwrite : ∀ j, out.write j = none)
    (h : writeRows ToString out cols rows i written = Except.ok records) :
    ∀ value ∈ rows, ∀ col ∈ cols,
      (castColValStaging ToString (value.index col.Name) col.KindDetails).2 = none := by
  induction rows generalizing i written with
  | nil => intro value hvalue; simp at hvalue
  | cons r rest ih =>
    intro value hvalue col hcol
    rcases hr : castRow ToString r cols with e | row
    · simp [writeRows, hr] at h
    · simp only [writeRows, hr, hwrite] at h
      rcases List.mem_cons.mp hvalue with hvr | hvrest
      · rw [hvr]
        exact castRow_cells ToString r cols row hr col hcol
      · exact ih (i + 1) (written ++ [row]) h value hvrest col hcol

/-- Claim C12: when the file is created and written without an input/output error, a batch in
which every cell casts successfully makes `writeTemporaryTableFile` return its path with no
error and leave in the file exactly one record for each row, in the order of the rows, each
with one field for each valid column, the field of a column being
`castColValStaging(row[name of the column], kind of the column)`; a column absent from the map
of a row is cast to the NULL sentinel; and when some cell fails to cast, the function returns
the cast error of a cell of the batch and the empty path. -/
theorem writeTemporaryTableFile_records {α : Type}
    (ToString : α → typing.KindDetails → String × error) (out : Outcomes) (fp : String)
    (tableData : optimization.TableData α) (fs : os.FileSystem)
    (hcreate : out.create = none) (hwrite : ∀ i, out.write i = none)
    (hflush : out.flush = none) :
    ((∀ value ∈ tableData.Rows, ∀ col ∈ tableData.ValidColumns,
        (castColValStaging ToString (value.index col.Name) col.KindDetails).2 = none) →
      (writeTemporaryTableFile ToString out fp tableData fs).1 = (fp, none) ∧
      (writeTemporaryTableFile ToString out fp tableData fs).2.contents fp =
        some (tableData.Rows.map (fun value => tableData.ValidColumns.map (fun col =>
          (castColValStaging ToString (value.index col.Name) col.KindDetails).1)))) ∧
    (∀ (value : optimization.Row α) (col : columns.Column), value.lookup col.Name = none →
      castColValStaging ToString (value.index col.Name) col.KindDetails = (nullSentinel, none)) ∧
    ((∃ value ∈ tableData.Rows, ∃ col ∈ tableData.ValidColumns,
        (castColValStaging ToString (value.index col.Name) col.KindDetails).2 ≠ none) →
      ∃ value ∈ tableData.Rows, ∃ col ∈ tableData.ValidColumns, ∃ castErr,
        (castColValStaging ToString (value.index col.Name) col.KindDetails).2 = some castErr ∧
        (writeTemporaryTableFile ToString out fp tableData fs).1 = ("", some castErr)) := by
  refine ⟨?_, ?_, ?_⟩
  · intro hall
    have hrows := writeRows_ok ToString out tableData.ValidColumns tableData.Rows 0 []
      hwrite hall
    simp only [writeTemporaryTableFile, hcreate, hrows, hflush, List.nil_append,
      contents_flush, and_self]
  · intro value col habsent
    simp only [optimization.Row.index, habsent, castColValStaging]
  · rintro ⟨value, hvalue, col, hcol, hfail⟩
    rcases hrows : writeRows ToString out tableData.ValidColumns tableData.Rows 0 []
      with err | records
    · obtain ⟨v, hv, c, hc, hce⟩ := writeRows_error ToString out tableData.ValidColumns
        tableData.Rows 0 [] err hwrite hrows
      refine ⟨v, hv, c, hc, err, hce, ?_⟩
      simp only [writeTemporaryTableFile, hcreate, hrows]
    · exact absurd (writeRows_cells ToString out tableData.ValidColumns tableData.Rows 0 []
        records hwrite hrows value hvalue col hcol) hfail

/-- Claim C12 on a batch of two rows and two columns. -/
theorem writeTemporaryTableFile_records_witness :
    (writeTemporaryTableFile (fun (s : String) _ => (s, none))
      { alterTable := none, create := none, write := fun _ => none, flush := none,
        put := none, copy := none, remove := none } "/tmp/t.csv"
      { ValidColumns := [columns.NewColumn "id" typing.Integer,
          columns.NewColumn "name" typing.String],
        Rows := [[("id", some "1")], [("name", some "x"), ("id", none)]],
        AdditionalMergePredicates := [] } []).2.contents "/tmp/t.csv"
      = some [["1", nullSentinel], [nullSentinel, "x"]] :=
  ((writeTemporaryTableFile_records (fun (s : String) _ => (s, none))
      { alterTable := none, create := none, write := fun _ => none, flush := none,
        put := none, copy := none, remove := none } "/tmp/t.csv"
      { ValidColumns := [columns.NewColumn "id" typing.Integer,
          columns.NewColumn "name" typing.String],
        Rows := [[("id", some "1")], [("name", some "x"), ("id", none)]],
        AdditionalMergePredicates := [] } [] rfl (fun _ => rfl) rfl).1 (by decide)).2

end snowflake

namespace snowflake

/-- The outcome of the removal is not read by the loop over the rows. -/
theorem writeRows_remove {α : Type} (ToString : α → typing.KindDetails → String × error)
    (out : Outcomes) (r : error) (cols : List columns.Column) (rows : List (optimization.Row α))
    (i : Nat) (written : List (List String)) :
    writeRows ToString { out with remove := r } cols rows i written =
      writeRows ToString out cols rows i written := by
  induction rows generalizing i written with
  | nil => rfl
  | cons value rest ih => simp only [writeRows, ih]

/-- The outcome of the removal is not read by `writeTemporaryTableFile`. -/
theorem writeTemporaryTableFile_remove {α : Type}
    (ToString : α → typing.KindDetails → String × error) (out : Outcomes) (r : error)
    (fp : String) (tableData : optimization.TableData α) (fs : os.FileSystem) :
    writeTemporaryTableFile ToString { out with remove := r } fp tableData fs =
      writeTemporaryTableFile ToString out fp tableData fs := by
  simp only [writeTemporaryTableFile, writeRows_remove]

/-- The error returned by `PrepareTemporaryTable`, without the file system. -/
theorem PrepareTemporaryTable_error {α : Type}
    (ToString : α → typing.KindDetails → String × error) (out : Outcomes)
    (fp : String) (tableData : optimization.TableData α) (createTempTable : Bool)
    (fs : os.FileSystem) :
    (PrepareTemporaryTable ToString out fp tableData createTempTable fs).1 =
      match createTempTable, out.alterTable with
      | true, some err => some ("failed to create temp table: " ++ err)
      | _, _ =>
        match (writeTemporaryTableFile ToString out fp tableData fs).1.2 with
        | some err => some ("failed to load temporary table: " ++ err)
        | none =>
          match out.put with
          | some err => some ("failed to run PUT for temporary table: " ++ err)
          | none =>
            match out.copy with
            | some err => some ("failed to run copy into temporary table: " ++ err)
            | none => none := by
  unfold PrepareTemporaryTable
  rcases hw : writeTemporaryTableFile ToString out fp tableData fs with ⟨⟨path, _ | werr⟩, fs'⟩ <;>
    rcases hput : out.put with _ | perr <;>
    rcases hcopy : out.copy with _ | cerr <;>
    rcases halter : out.alterTable with _ | aerr <;>
    cases createTempTable <;> rfl

/-- Claim C14: for every batch and every outcome of the create-table, file, PUT and COPY steps,
`PrepareTemporaryTable` returns the same error whether the deferred removal of the transport
file succeeds or fails, and whatever error the removal fails with. -/
theorem PrepareTemporaryTable_error_independent_of_removal {α : Type}
    (ToString : α → typing.KindDetails → String × error) (out : Outcomes)
    (fp : String) (tableData : optimization.TableData α) (createTempTable : Bool)
    (fs : os.FileSystem) (removal removal' : error) :
    (PrepareTemporaryTable ToString { out with remove := removal } fp tableData
        createTempTable fs).1 =
      (PrepareTemporaryTable ToString { out with remove := removal' } fp tableData
        createTempTable fs).1 := by
  simp only [PrepareTemporaryTable_error, writeTemporaryTableFile_remove]

/-- Claim C13, evaluated where it fails: on a batch of one row whose cell cannot be rendered,
with every call to the environment succeeding, `writeTemporaryTableFile` creates the transport
file and returns the cast error; `PrepareTemporaryTable` returns before its deferred removal is
registered, and the file still exists at the return. -/
theorem PrepareTemporaryTable_leaves_file_on_cast_error :
    PrepareTemporaryTable (fun (_ : Unit) _ => ("", some "cannot render"))
      { alterTable := none, create := none, write := fun _ => none, flush := none,
        put := none, copy := none, remove := none } "/tmp/t.csv"
      { ValidColumns := [columns.NewColumn "id" typing.Integer],
        Rows := [[("id", some ())]], AdditionalMergePredicates := [] } true []
      = (some "failed to load temporary table: cannot render", [("/tmp/t.csv", [])]) ∧
    (PrepareTemporaryTable (fun (_ : Unit) _ => ("", some "cannot render"))
      { alterTable := none, create := none, write := fun _ => none, flush := none,
        put := none, copy := none, remove := none } "/tmp/t.csv"
      { ValidColumns := [columns.NewColumn "id" typing.Integer],
        Rows := [[("id", some ())]], AdditionalMergePredicates := [] } true []).2.Exists
      "/tmp/t.csv" = true := by
  decide

/-- The paths of C13 on which the file is removed: when `writeTemporaryTableFile` returns no
error and the removal succeeds, the transport file does not exist when `PrepareTemporaryTable`
returns, whether PUT fails, COPY fails or both succeed. -/
theorem PrepareTemporaryTable_removes_file {α : Type}
    (ToString : α → typing.KindDetails → String × error) (out : Outcomes)
    (fp : String) (tableData : optimization.TableData α) (createTempTable : Bool)
    (fs : os.FileSystem)
    (hwritten : (writeTemporaryTableFile ToString out fp tableData fs).1.2 = none)
    (halter : createTempTable = true → out.alterTable = none)
    (hremove : out.remove = none) :
    (PrepareTemporaryTable ToString out fp tableData createTempTable fs).2.Exists fp = false := by
  have hpath : (writeTemporaryTableFile ToString out fp tableData fs).1.1 = fp := by
    unfold writeTemporaryTableFile at hwritten ⊢
    rcases hc : out.create with _ | e
    · simp only [hc] at hwritten ⊢
      rcases hr : writeRows ToString out tableData.ValidColumns tableData.Rows 0 [] with e | recs
      · simp [hr] at hwritten
      · simp only [hr] at hwritten ⊢
        rcases hf : out.flush with _ | e <;> simp [hf] at hwritten ⊢
    · simp [hc] at hwritten
  unfold PrepareTemporaryTable
  rcases hw : writeTemporaryTableFile ToString out fp tableData fs with ⟨⟨path, werr⟩, fs'⟩
  rw [hw] at hwritten hpath
  simp only at hwritten hpath
  subst hwritten hpath
  have hrm : (removeTransportFile out path fs').Exists path = false := by
    simp only [removeTransportFile, hremove, Exists_RemoveAll]
  rcases hput : out.put with _ | perr <;>
    rcases hcopy : out.copy with _ | cerr <;>
    rcases hal : out.alterTable with _ | aerr <;>
    cases createTempTable <;>
    first
    | exact hrm
    | exact absurd (halter rfl) (by rw [hal]; simp)

end snowflake

namespace strings

/-- `strings.Index` finds a pattern exactly when the pattern occurs in the text. -/
theorem indexFrom_nonneg_iff (sep l : List Char) (off : Nat) :
    indexFrom sep l off ≥ 0 ↔ sep <:+: l := by
  induction l generalizing off with
  | nil =>
    unfold indexFrom
    by_cases h : sep = []
    · simp [h]
    · simp [h]
  | cons c cs ih =>
    unfold indexFrom
    by_cases hp : sep.isPrefixOf (c :: cs) = true
    · rw [if_pos hp]
      have hpre : sep <+: c :: cs := List.isPrefixOf_iff_prefix.mp hp
      constructor
      · intro _; exact hpre.isInfix
      · intro _; exact Int.ofNat_nonneg off
    · rw [if_neg hp, ih, List.infix_cons_iff]
      constructor
      · intro h; exact Or.inr h
      · rintro (h | h)
        · exact absurd (List.isPrefixOf_iff_prefix.mpr h) hp
        · exact h

/-- `strings.Contains` holds exactly when the text is some text, the pattern, and some text. -/
theorem Contains_iff (s substr : String) :
    Contains s substr = true ↔ ∃ before after : String, s = before ++ substr ++ after := by
  simp only [Contains, Index, decide_eq_true_eq, indexFrom_nonneg_iff]
  constructor
  · rintro ⟨a, b, hab⟩
    refine ⟨String.mk a, String.mk b, ?_⟩
    apply String.ext
    simp only [String.data_append, hab]
  · rintro ⟨before, after, h⟩
    refine ⟨before.data, after.data, ?_⟩
    rw [h]
    simp only [String.data_append]

end strings

namespace sql

/-- Claim C17: for a non-nil error, `IsColumnAlreadyExistsErr` is true exactly when the message
contains the text `Column already exists`, and false exactly when it does not; it is true for
`Column already exists: _string at [1:39]` and false for the same message with a small `c`. -/
theorem IsColumnAlreadyExistsErr_iff (message : String) :
    (BigQueryDialect.IsColumnAlreadyExistsErr (some message) = some true ↔
      ∃ before after : String, message = before ++ "Column already exists" ++ after) ∧
    (BigQueryDialect.IsColumnAlreadyExistsErr (some message) = some false ↔
      ¬ ∃ before after : String, message = before ++ "Column already exists" ++ after) ∧
    BigQueryDialect.IsColumnAlreadyExistsErr (some "Column already exists: _string at [1:39]")
      = some true ∧
    BigQueryDialect.IsColumnAlreadyExistsErr (some "column already exists: _string at [1:39]")
      = some false := by
  refine ⟨?_, ?_, by decide, by decide⟩
  · simp only [BigQueryDialect.IsColumnAlreadyExistsErr, Option.some.injEq,
      strings.Contains_iff]
  · simp only [BigQueryDialect.IsColumnAlreadyExistsErr, Option.some.injEq,
      ← strings.Contains_iff, Bool.not_eq_true]

/-- The format text of the TOAST expression, cut before the wrapper. -/
theorem toast_text_1 : ") != '\x7b\"key\":\"" = ") != '" ++ "\x7b\"key\":\"" := by decide
/-- The format text of the TOAST expression, cut after the wrapper. -/
theorem toast_text_2 : "\"\x7d', true) THEN cc." = "\"\x7d" ++ "', true) THEN cc." := by decide
/-- The start of the TOAST expression, cut at the syntax. -/
theorem toast_text_3 :
    "CASE WHEN COALESCE(TO_JSON_STRING(cc." =
      "CASE WHEN " ++ ("COALESCE(" ++ ("TO_JSON_STRING(" ++ ("cc" ++ "."))) := by decide
/-- The comparison of the TOAST expression, cut at the syntax. -/
theorem toast_text_4 : ") != '" = ")" ++ (" != " ++ "'") := by decide
/-- The middle of the TOAST expression, cut at the syntax. -/
theorem toast_text_5 :
    "', true) THEN cc." = "'" ++ (", " ++ ("true" ++ (")" ++ (" THEN " ++ ("cc" ++ "."))))) := by
  decide
/-- The end of the TOAST expression, cut at the syntax. -/
theorem toast_text_6 : " ELSE c." = " ELSE " ++ ("c" ++ ".") := by decide

/-- Claim C11: for every column name `c`, `BuildProcessToastStructColExpression(c)` is exactly the
text `CASE WHEN COALESCE(TO_JSON_STRING(cc.c) != 'W', true) THEN cc.c ELSE c.c END`, where `W`
is the wrapper of the TOAST placeholder, the same wrapper that casting the placeholder as a
Struct gives. That text is the text of a conditional whose value is the value of the target
column `c.c` exactly when the JSON text of the staged column `cc.c` is the wrapper, and the
value of the staged column otherwise, also when the JSON text is NULL. -/
theorem BuildProcessToastStructColExpression_spec (placeholder colName : String)
    {V : Type} [DecidableEq V] (cols : String → String → Option (SqlValue V))
    (toJson : Option (SqlValue V) → Option String)
    (render : values.Value → typing.KindDetails → String × error) :
    (values.ToString placeholder render (values.Value.str placeholder) typing.Struct).1
      = keyWrapper placeholder ∧
    BigQueryDialect.BuildProcessToastStructColExpression placeholder colName =
      "CASE WHEN COALESCE(TO_JSON_STRING(cc." ++ colName ++ ") != '" ++ keyWrapper placeholder
        ++ "', true) THEN cc." ++ colName ++ " ELSE c." ++ colName ++ " END" ∧
    BigQueryDialect.BuildProcessToastStructColExpression placeholder colName =
      (toastExpression placeholder colName).render ∧
    (toastExpression placeholder colName).eval cols toJson =
      (if toJson (cols "cc" colName) = some (keyWrapper placeholder) then cols "c" colName
       else cols "cc" colName) := by
  refine ⟨?_, ?_, ?_, ?_⟩
  · simp [values.ToString]
  · simp only [BigQueryDialect.BuildProcessToastStructColExpression, keyWrapper, toast_text_1,
      toast_text_2, String.append_assoc]
  · simp only [BigQueryDialect.BuildProcessToastStructColExpression, keyWrapper, toast_text_1,
      toast_text_2, toast_text_3, toast_text_4, toast_text_5, toast_text_6, toastExpression,
      SqlExpr.render, String.append_assoc]
  · simp only [toastExpression, SqlExpr.eval]
    rcases hj : toJson (cols "cc" colName) with _ | t
    · simp
    · by_cases ht : t = keyWrapper placeholder
      · simp [ht]
      · have hne : (SqlValue.text t != (SqlValue.text (keyWrapper placeholder) : SqlValue V))
            = true := by
          rw [bne_iff_ne]
          intro h
          exact ht (SqlValue.text.inj h)
        simp [ht, hne]

end sql

/-! ## Decimal details -/

namespace decimal

/-- The details of a decimal built with a requested precision. -/
theorem Details_NewDecimalWithPrecision (v : apd.Decimal) (p : Int) :
    (NewDecimalWithPrecision v p).Details =
      { scale := -v.Exponent,
        precision := if -v.Exponent > p ∧ p ≠ PrecisionNotSpecified then -v.Exponent + 1 else p } := by
  unfold NewDecimalWithPrecision
  simp only
  split_ifs <;> rfl

/-- The model agrees with every assertion of `decimal_test.go`. -/
theorem testAssertions_hold : ∀ a ∈ testAssertions, assertionHolds a = true := by
  decide

/-- Claim C15 fails on the assertion `Precision < scale` of `TestNewDecimalWithPrecision`: 12.34
has scale 2, and with the requested precision 1 its precision is 3, not `max(1, 2)`. -/
theorem NewDecimalWithPrecision_not_max :
    numbers.MustParseDecimal "12.34" = some { Negative := false, Coeff := 1234, Exponent := -2 } ∧
    (NewDecimalWithPrecision { Negative := false, Coeff := 1234, Exponent := -2 } 1).Details
      = { scale := 2, precision := 3 } ∧
    (NewDecimalWithPrecision { Negative := false, Coeff := 1234, Exponent := -2 } 1).Details.precision
      ≠ goMax 1
        (NewDecimalWithPrecision { Negative := false, Coeff := 1234, Exponent := -2 } 1).Scale := by
  decide

/-- Claim C15, amended: for every decimal value and every specified precision `p`, the precision
of the details is at least the scale; it is `p`, which is `max(p, scale)`, when `p` is at least
the scale, and the scale plus one when `p` is below the scale. -/
theorem NewDecimalWithPrecision_precision (v : apd.Decimal) (p : Int)
    (hp : p ≠ PrecisionNotSpecified) :
    (NewDecimalWithPrecision v p).Details.precision ≥ (NewDecimalWithPrecision v p).Scale ∧
    (p ≥ (NewDecimalWithPrecision v p).Scale →
      (NewDecimalWithPrecision v p).Details.precision
        = goMax p (NewDecimalWithPrecision v p).Scale) ∧
    (p < (NewDecimalWithPrecision v p).Scale →
      (NewDecimalWithPrecision v p).Details.precision
        = (NewDecimalWithPrecision v p).Scale + 1) := by
  have hs : (NewDecimalWithPrecision v p).Scale = -v.Exponent := by
    unfold NewDecimalWithPrecision Decimal.Scale
    simp only
    split_ifs <;> rfl
  rw [Details_NewDecimalWithPrecision, hs]
  simp only [goMax]
  refine ⟨?_, ?_, ?_⟩
  · split_ifs <;> omega
  · intro h
    rw [if_neg (by omega), if_pos h]
  · intro h
    rw [if_pos ⟨h, hp⟩]

/-- Claim C15, amended, at 12.34 with the precisions 1 and 4. -/
theorem NewDecimalWithPrecision_precision_witness :
    (NewDecimalWithPrecision { Negative := false, Coeff := 1234, Exponent := -2 } 1).Details.precision
      = 3 ∧
    (NewDecimalWithPrecision { Negative := false, Coeff := 1234, Exponent := -2 } 4).Details.precision
      = 4 :=
  ⟨((NewDecimalWithPrecision_precision { Negative := false, Coeff := 1234, Exponent := -2 } 1
      (by decide)).2.2 (by decide)).trans (by decide),
   ((NewDecimalWithPrecision_precision { Negative := false, Coeff := 1234, Exponent := -2 } 4
      (by decide)).2.1 (by decide)).trans (by decide)⟩

/-- A run of decimal digits has a value. -/
theorem digitsFrom_isSome (cs : List Char) (acc : Nat)
    (h : ∀ c ∈ cs, strconv.isDigit c = true) : ∃ n, strconv.digitsFrom cs acc = some n := by
  induction cs generalizing acc with
  | nil => exact ⟨acc, rfl⟩
  | cons c rest ih =>
    have hc := h c (List.mem_cons_self c rest)
    simp only [strconv.digitsFrom, hc, if_true]
    exact ih _ (fun d hd => h d (List.mem_cons_of_mem c hd))

/-- A decimal text `whole.fraction` is parsed with the count of the digits of `fraction`,
trailing zeros included, as its scale. -/
theorem MustParseDecimal_scale (whole fraction : List Char) (hne : whole ≠ [])
    (hw : ∀ c ∈ whole, strconv.isDigit c = true)
    (hf : ∀ c ∈ fraction, strconv.isDigit c = true) :
    (numbers.MustParseDecimal (String.mk (whole ++ '.' :: fraction))).map
      (fun v => (NewDecimal v).Scale) = some (fraction.length : Int) := by
  have hdotw : '.' ∉ whole := by
    intro hm
    have := hw '.' hm
    revert this
    decide
  have hdotf : '.' ∉ fraction := by
    intro hm
    have := hf '.' hm
    revert this
    decide
  obtain ⟨d, ds, hwd⟩ : ∃ d ds, whole = d :: ds := by
    cases whole with
    | nil => exact absurd rfl hne
    | cons d ds => exact ⟨d, ds, rfl⟩
  have hd := hw d (by rw [hwd]; exact List.mem_cons_self d ds)
  have hdm : d ≠ '-' := by
    intro e; rw [e] at hd; revert hd; decide
  have hdp : d ≠ '+' := by
    intro e; rw [e] at hd; revert hd; decide
  have hunsigned : (match (String.mk (whole ++ '.' :: fraction)).data with
      | '-' :: cs => cs
      | '+' :: cs => cs
      | cs => cs) = whole ++ '.' :: fraction := by
    subst hwd
    simp only [List.cons_append]
    split
    · rename_i heq; exact absurd (List.cons.inj heq).1 hdm
    · rename_i heq; exact absurd (List.cons.inj heq).1 hdp
    · rfl
  have hsplit : strings.splitChars '.' (whole ++ '.' :: fraction) = [whole, fraction] := by
    rw [sql.splitChars_append_sep '.' whole fraction hdotw,
      sql.splitChars_no_sep '.' fraction hdotf]
  have hall : ∀ c ∈ whole ++ fraction, strconv.isDigit c = true := by
    intro c hc
    rcases List.mem_append.mp hc with h | h
    · exact hw c h
    · exact hf c h
  obtain ⟨n, hn⟩ := digitsFrom_isSome (whole ++ fraction) 0 hall
  have hdigits : strconv.digits (whole ++ fraction) = some n := by
    subst hwd
    simpa [strconv.digits] using hn
  simp only [numbers.MustParseDecimal, hunsigned, hsplit, hdigits, Option.map_some']
  simp [NewDecimal, NewDecimalWithPrecision, Decimal.Scale, PrecisionNotSpecified]

/-- Claim C16: for every decimal value with scale `s` and every requested precision `p`: with
`PrecisionNotSpecified` the details are scale `s` and precision -1, which `NewDecimal` gives
too; with `p` at least `s` they are scale `s` and precision `p`; with `p` specified and below
`s` the precision is `s + 1`. The scale counts the digits after the decimal point, trailing
zeros included: a text `whole.fraction` has the number of digits of `fraction` as its scale
(12300.00 has scale 2). Every assertion of `decimal_test.go` on details and scales holds. -/
theorem NewDecimalWithPrecision_details (v : apd.Decimal) (p : Int) :
    ((NewDecimalWithPrecision v PrecisionNotSpecified).Details
        = { scale := -v.Exponent, precision := -1 } ∧
      (NewDecimal v).Details = { scale := -v.Exponent, precision := -1 }) ∧
    (p ≥ -v.Exponent →
      (NewDecimalWithPrecision v p).Details = { scale := -v.Exponent, precision := p }) ∧
    (p ≠ PrecisionNotSpecified → p < -v.Exponent →
      (NewDecimalWithPrecision v p).Details
        = { scale := -v.Exponent, precision := -v.Exponent + 1 }) ∧
    (∀ whole fraction : List Char, whole ≠ [] → (∀ c ∈ whole, strconv.isDigit c = true) →
      (∀ c ∈ fraction, strconv.isDigit c = true) →
      (numbers.MustParseDecimal (String.mk (whole ++ '.' :: fraction))).map
        (fun d => (NewDecimal d).Scale) = some (fraction.length : Int)) ∧
    (numbers.MustParseDecimal "12300.00").map (fun d => (NewDecimal d).Scale) = some 2 ∧
    (∀ a ∈ testAssertions, assertionHolds a = true) := by
  refine ⟨⟨?_, ?_⟩, ?_, ?_, MustParseDecimal_scale, by decide, testAssertions_hold⟩
  · rw [Details_NewDecimalWithPrecision, if_neg (by simp)]
    rfl
  · unfold NewDecimal
    rw [Details_NewDecimalWithPrecision, if_neg (by simp)]
    rfl
  · intro h
    rw [Details_NewDecimalWithPrecision, if_neg (by omega)]
  · intro hp h
    rw [Details_NewDecimalWithPrecision, if_pos ⟨h, hp⟩]

/-- Claim C16 at 12.34 with the requested precision 1: scale 2 and precision 3. -/
theorem NewDecimalWithPrecision_details_witness :
    (numbers.MustParseDecimal "12.34").map (fun v => (NewDecimalWithPrecision v 1).Details)
      = some { scale := 2, precision := 3 } :=
  (congrArg (Option.map (fun v => (NewDecimalWithPrecision v 1).Details))
      (show numbers.MustParseDecimal "12.34"
        = some { Negative := false, Coeff := 1234, Exponent := -2 } by decide)).trans
    (congrArg some
      ((NewDecimalWithPrecision_details { Negative := false, Coeff := 1234, Exponent := -2 }
        1).2.2.1 (by decide) (by decide)))

end decimal

/-! ## Merge predicates -/

namespace snowflake

/-- The loop of `additionalEqualityStrings` fills the slots after `done` with the columns of the
predicates, in order. -/
theorem assignColumns_append (done : List columns.Column)
    (preds : List optimization.MergePredicates) :
    assignColumns (done ++ List.replicate preds.length zeroColumn) done.length preds =
      done ++ preds.map (fun p => columns.NewColumn p.PartitionField typing.Invalid) := by
  induction preds generalizing done with
  | nil => simp [assignColumns]
  | cons p rest ih =>
    have hset : (done ++ List.replicate (p :: rest).length zeroColumn).set done.length
        (columns.NewColumn p.PartitionField typing.Invalid) =
        (done ++ [columns.NewColumn p.PartitionField typing.Invalid]) ++
          List.replicate rest.length zeroColumn := by
      simp [List.replicate_succ, List.set_append_right]
    have hlen : done.length + 1
        = (done ++ [columns.NewColumn p.PartitionField typing.Invalid]).length := by simp
    simp only [assignColumns]
    rw [hset, hlen, ih]
    simp

/-- The columns that `additionalEqualityStrings` builds. -/
theorem assignColumns_eq_map (preds : List optimization.MergePredicates) :
    assignColumns (List.replicate preds.length zeroColumn) 0 preds =
      preds.map (fun p => columns.NewColumn p.PartitionField typing.Invalid) := by
  simpa using assignColumns_append [] preds

/-- The text of one comparison. -/
theorem BuildColumnComparison_text (field T S : String) (q : String → String) :
    sql.BuildColumnComparison (columns.NewColumn field typing.Invalid) T S sql.Equal q =
      T ++ "." ++ q field ++ " = " ++ S ++ "." ++ q field := by
  have h : " " ++ ("=" ++ " ") = " = " := by decide
  simp only [sql.BuildColumnComparison, sql.QuoteTableAliasColumn, sql.Equal,
    columns.Column.Name, columns.NewColumn, String.append_assoc]
  rw [← String.append_assoc " " "=", ← String.append_assoc (" " ++ "=") " ",
    String.append_assoc " " "=" " ", h]

/-- Claim C18: `additionalEqualityStrings` returns one comparison for each additional merge
predicate of the topic configuration, in the same order, each the equality of the partition
field between the target alias and the staging alias; the list is empty when there is no
predicate; and `Merge` passes exactly this list as the additional equality strings. -/
theorem additionalEqualityStrings_spec {α : Type}
    (sharedMerge : optimization.TableData α → types.MergeOpts → error)
    (TargetAlias StagingAlias : String) (QuoteIdentifier : String → String)
    (tableData : optimization.TableData α) :
    additionalEqualityStrings TargetAlias StagingAlias QuoteIdentifier tableData =
      tableData.AdditionalMergePredicates.map (fun p =>
        TargetAlias ++ "." ++ QuoteIdentifier p.PartitionField ++ " = "
          ++ StagingAlias ++ "." ++ QuoteIdentifier p.PartitionField) ∧
    (additionalEqualityStrings TargetAlias StagingAlias QuoteIdentifier tableData).length =
      tableData.AdditionalMergePredicates.length ∧
    (tableData.AdditionalMergePredicates = [] →
      additionalEqualityStrings TargetAlias StagingAlias QuoteIdentifier tableData = []) ∧
    Merge sharedMerge TargetAlias StagingAlias QuoteIdentifier tableData =
      sharedMerge tableData
        { AdditionalEqualityStrings :=
            additionalEqualityStrings TargetAlias StagingAlias QuoteIdentifier tableData } := by
  have hmain : additionalEqualityStrings TargetAlias StagingAlias QuoteIdentifier tableData =
      tableData.AdditionalMergePredicates.map (fun p =>
        TargetAlias ++ "." ++ QuoteIdentifier p.PartitionField ++ " = "
          ++ StagingAlias ++ "." ++ QuoteIdentifier p.PartitionField) := by
    simp only [additionalEqualityStrings, assignColumns_eq_map, sql.BuildColumnComparisons,
      List.map_map]
    apply List.map_congr_left
    intro p _
    exact BuildColumnComparison_text p.PartitionField TargetAlias StagingAlias QuoteIdentifier
  refine ⟨hmain, ?_, ?_, rfl⟩
  · rw [hmain, List.length_map]
  · intro h
    rw [hmain, h]
    rfl

/-- Claim C18 on two predicates and on none. -/
theorem additionalEqualityStrings_spec_witness :
    additionalEqualityStrings "tgt" "stg" (fun name => "\"" ++ name ++ "\"")
      ({ ValidColumns := [], Rows := [],
         AdditionalMergePredicates := [{ PartitionField := "day" }, { PartitionField := "region" }] }
        : optimization.TableData Unit)
      = ["tgt.\"day\" = stg.\"day\"", "tgt.\"region\" = stg.\"region\""] ∧
    additionalEqualityStrings "tgt" "stg" (fun name => "\"" ++ name ++ "\"")
      ({ ValidColumns := [], Rows := [], AdditionalMergePredicates := [] }
        : optimization.TableData Unit) = [] :=
  ⟨((additionalEqualityStrings_spec (fun _ _ => none) "tgt" "stg"
      (fun name => "\"" ++ name ++ "\"")
      ({ ValidColumns := [], Rows := [],
         AdditionalMergePredicates := [{ PartitionField := "day" }, { PartitionField := "region" }] }
        : optimization.TableData Unit)).1).trans (by decide),
   (additionalEqualityStrings_spec (fun _ _ => none) "tgt" "stg"
      (fun name => "\"" ++ name ++ "\"")
      ({ ValidColumns := [], Rows := [], AdditionalMergePredicates := [] }
        : optimization.TableData Unit)).2.2.1 rfl⟩

end snowflake

/-! ## `DataTypeForKind` -/

namespace sql

/-- Claim C19 fails on the templates `typing.ETime` and `typing.EDecimal`: they carry no details,
and `DataTypeForKind` dereferences the details instead of returning the kind tag. -/
theorem DataTypeForKind_fails_without_details :
    BigQueryDialect.DataTypeForKind (decimal.DecimalDetails.BigQueryKind "STRING")
      typing.ETime false = none ∧
    BigQueryDialect.DataTypeForKind (decimal.DecimalDetails.BigQueryKind "STRING")
      typing.EDecimal false = none := by
  decide

/-- Claim C19, amended: the context flag never changes the result, and for every kind details
that carry the details of their kind `DataTypeForKind` is this table: Float gives `float64`,
Array gives `array<string>`, Struct gives `json`, ExtendedTime gives `timestamp`, `date` or
`time` by its sub-kind and its own tag for an unrecognised sub-kind, ExtendedDecimal gives the
BigQuery type name of its decimal details, and every other kind gives its own tag. -/
theorem DataTypeForKind_table (BigQueryKind : decimal.DecimalDetails → String)
    (kindDetails : typing.KindDetails) (flag : Bool) :
    (BigQueryDialect.DataTypeForKind BigQueryKind kindDetails true
      = BigQueryDialect.DataTypeForKind BigQueryKind kindDetails false) ∧
    (kindDetails.Kind = typing.Float.Kind →
      BigQueryDialect.DataTypeForKind BigQueryKind kindDetails flag = some "float64") ∧
    (kindDetails.Kind = typing.Array.Kind →
      BigQueryDialect.DataTypeForKind BigQueryKind kindDetails flag = some "array<string>") ∧
    (kindDetails.Kind = typing.Struct.Kind →
      BigQueryDialect.DataTypeForKind BigQueryKind kindDetails flag = some "json") ∧
    (kindDetails.Kind = typing.ETime.Kind →
      ∀ details, kindDetails.ExtendedTimeDetails = some details →
        BigQueryDialect.DataTypeForKind BigQueryKind kindDetails flag =
          some (match details.Type_ with
            | ext.ExtendedTimeKindType.DateTimeKindType => "timestamp"
            | ext.ExtendedTimeKindType.DateKindType => "date"
            | ext.ExtendedTimeKindType.TimeKindType => "time"
            | ext.ExtendedTimeKindType.Unrecognised => kindDetails.Kind)) ∧
    (kindDetails.Kind = typing.EDecimal.Kind →
      ∀ details, kindDetails.ExtendedDecimalDetails = some details →
        BigQueryDialect.DataTypeForKind BigQueryKind kindDetails flag
          = some (BigQueryKind details)) ∧
    (kindDetails.Kind ≠ typing.Float.Kind → kindDetails.Kind ≠ typing.Array.Kind →
      kindDetails.Kind ≠ typing.Struct.Kind → kindDetails.Kind ≠ typing.ETime.Kind →
      kindDetails.Kind ≠ typing.EDecimal.Kind →
      BigQueryDialect.DataTypeForKind BigQueryKind kindDetails flag = some kindDetails.Kind) := by
  refine ⟨rfl, ?_, ?_, ?_, ?_, ?_, ?_⟩
  · intro h
    simp [BigQueryDialect.DataTypeForKind, h]
  · intro h
    have h1 : ¬ typing.Array.Kind = typing.Float.Kind := by decide
    simp [BigQueryDialect.DataTypeForKind, h, h1]
  · intro h
    have h1 : ¬ typing.Struct.Kind = typing.Float.Kind := by decide
    have h2 : ¬ typing.Struct.Kind = typing.Array.Kind := by decide
    simp [BigQueryDialect.DataTypeForKind, h, h1, h2]
  · intro h details hd
    have h1 : ¬ typing.ETime.Kind = typing.Float.Kind := by decide
    have h2 : ¬ typing.ETime.Kind = typing.Array.Kind := by decide
    have h3 : ¬ typing.ETime.Kind = typing.Struct.Kind := by decide
    simp only [BigQueryDialect.DataTypeForKind, h, h1, h2, h3, if_false, if_true, hd]
    cases details.Type_ <;> rfl
  · intro h details hd
    have h1 : ¬ typing.EDecimal.Kind = typing.Float.Kind := by decide
    have h2 : ¬ typing.EDecimal.Kind = typing.Array.Kind := by decide
    have h3 : ¬ typing.EDecimal.Kind = typing.Struct.Kind := by decide
    have h4 : ¬ typing.EDecimal.Kind = typing.ETime.Kind := by decide
    simp only [BigQueryDialect.DataTypeForKind, h, h1, h2, h3, h4, if_false, if_true, hd]
  · intro h1 h2 h3 h4 h5
    simp only [BigQueryDialect.DataTypeForKind, h1, h2, h3, h4, h5, if_false]

/-- Claim C19, amended, at the Date kind and at Integer. -/
theorem DataTypeForKind_table_witness :
    BigQueryDialect.DataTypeForKind (decimal.DecimalDetails.BigQueryKind "STRING")
      (typing.NewKindDetailsFromTemplate typing.ETime ext.ExtendedTimeKindType.DateKindType) true
      = some "date" ∧
    BigQueryDialect.DataTypeForKind (decimal.DecimalDetails.BigQueryKind "STRING")
      typing.Integer true = some "int" :=
  ⟨(DataTypeForKind_table (decimal.DecimalDetails.BigQueryKind "STRING")
      (typing.NewKindDetailsFromTemplate typing.ETime ext.ExtendedTimeKindType.DateKindType)
      true).2.2.2.2.1 rfl { Type_ := ext.ExtendedTimeKindType.DateKindType } rfl,
   (DataTypeForKind_table (decimal.DecimalDetails.BigQueryKind "STRING")
      typing.Integer true).2.2.2.2.2.2 (by decide) (by decide) (by decide) (by decide)
      (by decide)⟩

end sql

/-! ## The length of a masked value -/

namespace snowflake

/-- Claim C20 fails: a value of 6 bytes under a String precision of 5 is replaced by the marker,
whose 22 bytes exceed the precision. -/
theorem replaceExceededValues_marker_exceeds_precision :
    replaceExceededValues "abcdef" { typing.String with OptionalStringPrecision := some 5 }
      = constants.ExceededValueMarker ∧
    len (replaceExceededValues "abcdef"
      { typing.String with OptionalStringPrecision := some 5 }) = 22 ∧
    ¬ ((len (replaceExceededValues "abcdef"
      { typing.String with OptionalStringPrecision := some 5 }) : Int) ≤ 5) := by
  decide

/-- Claim C20, amended: for a value shorter than `2^31` bytes, the output of
`replaceExceededValues` has at most `p` bytes for a String kind with a precision `p` of at least
22, the length of the marker, and at most 16777216 bytes for a String kind without precision
and for a Struct kind. -/
theorem replaceExceededValues_fits_limit (v : String) (kind : typing.KindDetails)
    (hlen : len v < 2147483648) :
    (kind.Kind = typing.String.Kind → ∀ p : Int, kind.OptionalStringPrecision = some p →
      22 ≤ p → (len (replaceExceededValues v kind) : Int) ≤ p) ∧
    (kind.Kind = typing.String.Kind → kind.OptionalStringPrecision = none →
      len (replaceExceededValues v kind) ≤ 16777216) ∧
    (kind.Kind = typing.Struct.Kind → len (replaceExceededValues v kind) ≤ 16777216) := by
  have h32 := int32_of_small (len v) hlen
  have hmarker : len constants.ExceededValueMarker = 22 := by decide
  have hwrapper : len (keyWrapper constants.ExceededValueMarker) = 32 := by decide
  refine ⟨?_, ?_, ?_⟩
  · intro hk p hp h22
    rw [replaceExceededValues_string v kind hk, hp, h32]
    simp only [Option.getD_some]
    split_ifs with h
    · rw [hmarker]; exact_mod_cast h22
    · omega
  · intro hk hp
    rw [replaceExceededValues_string v kind hk, hp, h32]
    simp only [Option.getD_none, maxLobLength]
    split_ifs with h
    · rw [hmarker]; omega
    · omega
  · intro hk
    rw [replaceExceededValues_struct v kind hk, h32]
    simp only [maxLobLength]
    split_ifs with h
    · rw [hwrapper]; omega
    · omega

/-- Claim C20, amended, at a value of 26 bytes under a precision of 25. -/
theorem replaceExceededValues_fits_limit_witness :
    (len (replaceExceededValues "abcdefghijklmnopqrstuvwxyz"
      { typing.String with OptionalStringPrecision := some 25 }) : Int) ≤ 25 :=
  (replaceExceededValues_fits_limit "abcdefghijklmnopqrstuvwxyz"
    { typing.String with OptionalStringPrecision := some 25 } (by decide)).1 rfl 25 rfl
    (by decide)

end snowflake

end Transfer
